import Mathlib

/-!
Verification of the valorant-pickem-analyzer repository.

Python strings are modelled as `List Char` (alias `Str`).  Each definition
below is a shallow embedding of the correspondingly named function of the
source (src/scraper/vlr.py, src/scraper/underdog.py, src/app.py, src/main.py);
the doc comment of every definition names the source location it embeds.
-/

namespace Pickem

abbrev Str := List Char

/-- Python `str.strip()` whitespace class restricted to the ASCII whitespace
characters (space, tab, newline, carriage return, vertical tab, form feed). -/
def isPySpace (c : Char) : Bool :=
  c = ' ' || c = '\t' || c = '\n' || c = '\r' || c = '\x0b' || c = '\x0c'

/-- Python `str.strip()`: drop whitespace from both ends. -/
def pyStrip (s : Str) : Str :=
  ((s.dropWhile isPySpace).reverse.dropWhile isPySpace).reverse

/-- The characters removed by `normalize_name` (src/scraper/vlr.py lines
14-17): space, period, hyphen, underscore and `@`. -/
def isSepChar (c : Char) : Bool :=
  c = ' ' || c = '.' || c = '-' || c = '_' || c = '@'

/-- Python `str.lower()` (ASCII case fold, via `Char.toLower`). -/
def lowerStr (s : Str) : Str := s.map Char.toLower

/-- `normalize_name` (src/scraper/vlr.py lines 8-18): lower-case, strip
leading/trailing whitespace, then remove every space, `.`, `-`, `_`, `@`.
The `if not name: return ""` guard is absorbed: on `[]` the result is `[]`. -/
def normalize_name (s : Str) : Str :=
  (pyStrip (lowerStr s)).filter (fun c => !(isSepChar c))

/-- Python substring test `isPrefixL needle hay`: `needle` is a prefix. -/
def isPrefixL : Str → Str → Bool
  | [], _ => true
  | _ :: _, [] => false
  | a :: as, b :: bs => a == b && isPrefixL as bs

/-- Python `needle in hay` (substring containment). -/
def listContains (needle : Str) : Str → Bool
  | [] => needle.isEmpty
  | c :: rest => isPrefixL needle (c :: rest) || listContains needle rest

/-- The case-folded subsequence of non-separator characters of a name:
two names "differ only by letter case, internal spacing, or the separator
characters `. - _ @`" exactly when their `coreChars` agree. -/
def coreChars (s : Str) : Str :=
  (s.filter (fun c => !(isSepChar c))).map Char.toLower

/-- A name is tame when every whitespace character it contains is a plain
space (no tabs, newlines, ...). -/
def spacesOnly (s : Str) : Bool :=
  s.all (fun c => !(isPySpace c) || c = ' ')

/-! ## Kill Aggregator data model (src/scraper/vlr.py lines 773-932) -/

/-- One per-map record emitted by `parse_match_page` (the dict appended at
src/scraper/vlr.py lines 886-893). -/
structure MapRecord where
  map : Str
  agent : Str
  kills : Nat
  match_url : Str
  match_title : Str
  match_date : Str
deriving DecidableEq, Repr

/-- The per-map triple stored in a bucket's `map_kills` list
(src/scraper/vlr.py lines 914-918). -/
structure MapKill where
  map : Str
  agent : Str
  kills : Nat
deriving DecidableEq, Repr

/-- A `match_data` bucket before totals are computed
(src/scraper/vlr.py lines 904-911). -/
structure MatchBucket where
  player : Str
  matchTitle : Str
  date : Str
  match_url : Str
  map_kills : List MapKill
  maps_counted : Nat
deriving DecidableEq, Repr

/-- A bucket with its `total_kills` field set (src/scraper/vlr.py line 926);
exactly the dicts returned in `filtered`. -/
structure MatchSummary where
  player : Str
  matchTitle : Str
  date : Str
  match_url : Str
  map_kills : List MapKill
  maps_counted : Nat
  total_kills : Nat
deriving DecidableEq, Repr

/-- The fresh bucket created when a match key is first seen
(src/scraper/vlr.py lines 903-911). -/
def freshBucket (player : Str) (m : MapRecord) : MatchBucket :=
  { player := player
    matchTitle := m.match_title
    date := m.match_date
    match_url := m.match_url
    map_kills := []
    maps_counted := 0 }

/-- The body guarded by `maps_counted < max_maps`
(src/scraper/vlr.py lines 912-919): append the record's triple and bump the
counter; otherwise leave the bucket alone. -/
def bumpBucket (maxMaps : Nat) (b : MatchBucket) (m : MapRecord) : MatchBucket :=
  if b.maps_counted < maxMaps then
    { b with
      map_kills := b.map_kills ++ [⟨m.map, m.agent, m.kills⟩]
      maps_counted := b.maps_counted + 1 }
  else b

/-- One iteration of the first loop of `group_kills_by_match`
(src/scraper/vlr.py lines 901-919) on the insertion-ordered dict
`match_data`, modelled as a list of buckets: look up the record's
`match_url`; create the bucket if absent; then apply the guarded append. -/
def updateBuckets (player : Str) (maxMaps : Nat) (m : MapRecord) :
    List MatchBucket → List MatchBucket
  | [] => [bumpBucket maxMaps (freshBucket player m) m]
  | b :: bs =>
    if b.match_url = m.match_url then bumpBucket maxMaps b m :: bs
    else b :: updateBuckets player maxMaps m bs

/-- The first loop of `group_kills_by_match` over `all_maps`
(src/scraper/vlr.py lines 901-919). -/
def buildBuckets (player : Str) (maxMaps : Nat) (all_maps : List MapRecord) :
    List MatchBucket :=
  all_maps.foldl (fun acc m => updateBuckets player maxMaps m acc) []

/-- `match["total_kills"] = sum(...)` (src/scraper/vlr.py lines 924-926). -/
def finalizeBucket (b : MatchBucket) : MatchSummary :=
  { player := b.player
    matchTitle := b.matchTitle
    date := b.date
    match_url := b.match_url
    map_kills := b.map_kills
    maps_counted := b.maps_counted
    total_kills := (b.map_kills.map (·.kills)).sum }

/-- `group_kills_by_match` (src/scraper/vlr.py lines 898-932): build the
insertion-ordered buckets, compute each total, keep only buckets with
`maps_counted == max_maps` and a positive total. -/
def group_kills_by_match (all_maps : List MapRecord) (player : Str)
    (maxMaps : Nat) : List MatchSummary :=
  ((buildBuckets player maxMaps all_maps).map finalizeBucket).filter
    (fun s => s.maps_counted = maxMaps && 0 < s.total_kills)

/-! ### Specification-side aggregator (the words of the claim) -/

/-- The distinct match identifiers of `recs` in first-seen order, skipping
those already in `seen`. -/
def newKeysOf : List MapRecord → List Str → List Str
  | [], _ => []
  | m :: rest, seen =>
    if m.match_url ∈ seen then newKeysOf rest seen
    else m.match_url :: newKeysOf rest (m.match_url :: seen)

/-- First-seen-order list of match identifiers of a record list. -/
def firstSeenUrls (recs : List MapRecord) : List Str := newKeysOf recs []

/-- Restated from the claim: group records by match identifier in first-seen
order; for each match keep the first `n` records encountered (insertion
order); total is the sum of the kept kills; return exactly the groups with
`n` kept maps and a strictly positive total. -/
def groupSpec (recs : List MapRecord) (player : Str) (n : Nat) :
    List MatchSummary :=
  (firstSeenUrls recs).filterMap (fun k =>
    match recs.find? (fun r => r.match_url = k) with
    | none => none
    | some r0 =>
      let kept := ((recs.filter (fun r => r.match_url = k)).take n).map
        (fun r => (⟨r.map, r.agent, r.kills⟩ : MapKill))
      let total := (kept.map (·.kills)).sum
      if kept.length = n ∧ 0 < total then
        some ⟨player, r0.match_title, r0.match_date, k, kept, kept.length, total⟩
      else none)

/-! ### Proof that the aggregator matches the claim's description -/

/-- The records of `recs` whose match identifier is `k`, in order. -/
def recsFor (k : Str) (recs : List MapRecord) : List MapRecord :=
  recs.filter (fun r => r.match_url = k)

/-- The triple stored for a record. -/
def toKill (m : MapRecord) : MapKill := ⟨m.map, m.agent, m.kills⟩

/-- Fold a sequence of records into one bucket via the guarded append. -/
def foldBucket (maxMaps : Nat) (b : MatchBucket) (ms : List MapRecord) :
    MatchBucket :=
  ms.foldl (bumpBucket maxMaps) b

/-- The bucket produced for a first-seen key `k`: fresh from the first
record with that key, then folded over all records with that key. -/
def newBucket (player : Str) (maxMaps : Nat) (recs : List MapRecord)
    (k : Str) : MatchBucket :=
  match recs.find? (fun r => r.match_url = k) with
  | none => ⟨player, [], [], k, [], 0⟩
  | some r0 => foldBucket maxMaps (freshBucket player r0) (recsFor k recs)

lemma list_map_congr {α β : Type} (f g : α → β) :
    ∀ (l : List α), (∀ a ∈ l, f a = g a) → l.map f = l.map g := by
  intro l
  induction l with
  | nil => intro _; rfl
  | cons a t ih =>
    intro h
    simp only [List.map_cons]
    rw [h a (List.mem_cons_self a t), ih (fun x hx => h x (List.mem_cons_of_mem a hx))]

lemma list_filterMap_congr {α β : Type} (f g : α → Option β) :
    ∀ (l : List α), (∀ a ∈ l, f a = g a) → l.filterMap f = l.filterMap g := by
  intro l
  induction l with
  | nil => intro _; rfl
  | cons a t ih =>
    intro h
    simp only [List.filterMap_cons]
    rw [h a (List.mem_cons_self a t), ih (fun x hx => h x (List.mem_cons_of_mem a hx))]

lemma filter_map_eq_filterMap {α β : Type} (f : α → β) (p : β → Bool) :
    ∀ (l : List α),
      (l.map f).filter p =
        l.filterMap (fun a => if p (f a) then some (f a) else none) := by
  intro l
  induction l with
  | nil => rfl
  | cons a t ih =>
    simp only [List.map_cons, List.filter_cons, List.filterMap_cons]
    by_cases h : p (f a)
    · simp [h, ih]
    · simp [h, ih]

lemma bumpBucket_meta (n : Nat) (b : MatchBucket) (m : MapRecord) :
    (bumpBucket n b m).player = b.player ∧
      (bumpBucket n b m).matchTitle = b.matchTitle ∧
      (bumpBucket n b m).date = b.date ∧
      (bumpBucket n b m).match_url = b.match_url := by
  unfold bumpBucket
  split <;> exact ⟨rfl, rfl, rfl, rfl⟩

lemma bumpBucket_match_url (n : Nat) (b : MatchBucket) (m : MapRecord) :
    (bumpBucket n b m).match_url = b.match_url :=
  (bumpBucket_meta n b m).2.2.2

lemma foldBucket_meta (n : Nat) :
    ∀ (ms : List MapRecord) (b : MatchBucket),
      (foldBucket n b ms).player = b.player ∧
        (foldBucket n b ms).matchTitle = b.matchTitle ∧
        (foldBucket n b ms).date = b.date ∧
        (foldBucket n b ms).match_url = b.match_url := by
  intro ms
  induction ms with
  | nil => intro b; exact ⟨rfl, rfl, rfl, rfl⟩
  | cons m t ih =>
    intro b
    have h1 := bumpBucket_meta n b m
    have h2 := ih (bumpBucket n b m)
    refine ⟨?_, ?_, ?_, ?_⟩
    · exact h2.1.trans h1.1
    · exact h2.2.1.trans h1.2.1
    · exact h2.2.2.1.trans h1.2.2.1
    · exact h2.2.2.2.trans h1.2.2.2

lemma foldBucket_kills (n : Nat) :
    ∀ (ms : List MapRecord) (b : MatchBucket),
      b.maps_counted = b.map_kills.length →
      (foldBucket n b ms).map_kills =
          b.map_kills ++ (ms.take (n - b.maps_counted)).map toKill ∧
        (foldBucket n b ms).maps_counted =
          (foldBucket n b ms).map_kills.length := by
  intro ms
  induction ms with
  | nil =>
    intro b hb
    constructor
    · simp [foldBucket]
    · simpa [foldBucket] using hb
  | cons m t ih =>
    intro b hb
    show (foldBucket n (bumpBucket n b m) t).map_kills = _ ∧ _
    by_cases hlt : b.maps_counted < n
    · have hbump : bumpBucket n b m =
          { b with map_kills := b.map_kills ++ [toKill m]
                   maps_counted := b.maps_counted + 1 } := by
        unfold bumpBucket
        simp [hlt, toKill]
      have hb2 : (bumpBucket n b m).maps_counted =
          (bumpBucket n b m).map_kills.length := by
        rw [hbump]; simp [hb]
      obtain ⟨hk, hc⟩ := ih (bumpBucket n b m) hb2
      refine ⟨?_, hc⟩
      rw [hk, hbump]
      have hn : n - b.maps_counted = (n - (b.maps_counted + 1)) + 1 := by omega
      simp only [List.append_assoc, List.singleton_append]
      rw [hn, List.take_succ_cons, List.map_cons]
    · have hbump : bumpBucket n b m = b := by
        unfold bumpBucket
        simp [hlt]
      obtain ⟨hk, hc⟩ := ih (bumpBucket n b m) (by rw [hbump]; exact hb)
      refine ⟨?_, hc⟩
      rw [hk, hbump]
      have h0 : n - b.maps_counted = 0 := by omega
      simp [h0]

lemma updateBuckets_not_mem (player : Str) (n : Nat) (m : MapRecord) :
    ∀ (acc : List MatchBucket),
      m.match_url ∉ acc.map (·.match_url) →
      updateBuckets player n m acc =
        acc ++ [bumpBucket n (freshBucket player m) m] := by
  intro acc
  induction acc with
  | nil => intro _; rfl
  | cons b t ih =>
    intro h
    simp only [List.map_cons, List.mem_cons] at h
    push_neg at h
    have hne : ¬ b.match_url = m.match_url := fun he => h.1 he.symm
    simp only [updateBuckets, if_neg hne]
    rw [ih h.2]
    rfl

lemma map_update_id (n : Nat) (m : MapRecord) :
    ∀ (t : List MatchBucket),
      m.match_url ∉ t.map (·.match_url) →
      (t.map (fun b =>
        if b.match_url = m.match_url then bumpBucket n b m else b)) = t := by
  intro t
  induction t with
  | nil => intro _; rfl
  | cons b s ih =>
    intro h
    simp only [List.map_cons, List.mem_cons] at h
    push_neg at h
    have hne : ¬ b.match_url = m.match_url := fun he => h.1 he.symm
    simp only [List.map_cons, if_neg hne]
    rw [ih h.2]

lemma updateBuckets_mem (player : Str) (n : Nat) (m : MapRecord) :
    ∀ (acc : List MatchBucket),
      (acc.map (·.match_url)).Nodup →
      m.match_url ∈ acc.map (·.match_url) →
      updateBuckets player n m acc =
        acc.map (fun b =>
          if b.match_url = m.match_url then bumpBucket n b m else b) := by
  intro acc
  induction acc with
  | nil => intro _ h; simp at h
  | cons b t ih =>
    intro hnd hmem
    simp only [List.map_cons, List.nodup_cons] at hnd
    by_cases he : b.match_url = m.match_url
    · simp only [updateBuckets, if_pos he, List.map_cons, if_pos he]
      rw [map_update_id n m t (by rw [← he]; exact hnd.1)]
    · simp only [List.map_cons, List.mem_cons] at hmem
      have hmem2 : m.match_url ∈ t.map (·.match_url) := by
        rcases hmem with h1 | h2
        · exact absurd h1.symm he
        · exact h2
      simp only [updateBuckets, if_neg he, List.map_cons, if_neg he]
      rw [ih hnd.2 hmem2]

lemma newKeysOf_not_mem_seen :
    ∀ (recs : List MapRecord) (seen : List Str) (k : Str),
      k ∈ newKeysOf recs seen → k ∉ seen := by
  intro recs
  induction recs with
  | nil => intro seen k h; simp [newKeysOf] at h
  | cons m t ih =>
    intro seen k h
    by_cases hm : m.match_url ∈ seen
    · simp only [newKeysOf, if_pos hm] at h
      exact ih seen k h
    · simp only [newKeysOf, if_neg hm, List.mem_cons] at h
      rcases h with h1 | h2
      · rw [h1]; exact hm
      · intro hk
        exact ih (m.match_url :: seen) k h2 (List.mem_cons_of_mem _ hk)

lemma newKeysOf_seen_congr :
    ∀ (recs : List MapRecord) (s1 s2 : List Str),
      (∀ k, k ∈ s1 ↔ k ∈ s2) → newKeysOf recs s1 = newKeysOf recs s2 := by
  intro recs
  induction recs with
  | nil => intro _ _ _; rfl
  | cons m t ih =>
    intro s1 s2 h
    by_cases hm : m.match_url ∈ s1
    · simp only [newKeysOf, if_pos hm, if_pos ((h m.match_url).mp hm)]
      exact ih s1 s2 h
    · have hm2 : m.match_url ∉ s2 := fun hx => hm ((h m.match_url).mpr hx)
      simp only [newKeysOf, if_neg hm, if_neg hm2]
      rw [ih (m.match_url :: s1) (m.match_url :: s2)
        (fun k => by simp only [List.mem_cons]; rw [h k])]

lemma newKeysOf_exists_rec :
    ∀ (recs : List MapRecord) (seen : List Str) (k : Str),
      k ∈ newKeysOf recs seen → ∃ r ∈ recs, r.match_url = k := by
  intro recs
  induction recs with
  | nil => intro seen k h; simp [newKeysOf] at h
  | cons m t ih =>
    intro seen k h
    by_cases hm : m.match_url ∈ seen
    · simp only [newKeysOf, if_pos hm] at h
      obtain ⟨r, hr, hrk⟩ := ih seen k h
      exact ⟨r, List.mem_cons_of_mem m hr, hrk⟩
    · simp only [newKeysOf, if_neg hm, List.mem_cons] at h
      rcases h with h1 | h2
      · exact ⟨m, List.mem_cons_self m t, h1.symm⟩
      · obtain ⟨r, hr, hrk⟩ := ih (m.match_url :: seen) k h2
        exact ⟨r, List.mem_cons_of_mem m hr, hrk⟩

lemma recsFor_cons_ne (k : Str) (m : MapRecord) (rest : List MapRecord)
    (h : ¬ m.match_url = k) : recsFor k (m :: rest) = recsFor k rest := by
  simp [recsFor, List.filter_cons, h]

lemma recsFor_cons_eq (k : Str) (m : MapRecord) (rest : List MapRecord)
    (h : m.match_url = k) : recsFor k (m :: rest) = m :: recsFor k rest := by
  simp [recsFor, List.filter_cons, h]

lemma newBucket_cons_ne (player : Str) (n : Nat) (m : MapRecord)
    (rest : List MapRecord) (k : Str) (h : ¬ m.match_url = k) :
    newBucket player n (m :: rest) k = newBucket player n rest k := by
  unfold newBucket
  rw [List.find?_cons_of_neg _ (by simpa using h), recsFor_cons_ne k m rest h]

lemma buildBuckets_aux (player : Str) (n : Nat) :
    ∀ (recs : List MapRecord) (acc : List MatchBucket),
      (acc.map (·.match_url)).Nodup →
      recs.foldl (fun a m => updateBuckets player n m a) acc =
        acc.map (fun b => foldBucket n b (recsFor b.match_url recs))
          ++ (newKeysOf recs (acc.map (·.match_url))).map
               (newBucket player n recs) := by
  intro recs
  induction recs with
  | nil =>
    intro acc _
    simp [recsFor, newKeysOf, foldBucket]
  | cons m rest ih =>
    intro acc hnd
    rw [List.foldl_cons]
    by_cases hmem : m.match_url ∈ acc.map (·.match_url)
    · rw [updateBuckets_mem player n m acc hnd hmem]
      have hurls : (acc.map (fun b =>
          if b.match_url = m.match_url then bumpBucket n b m else b)).map
            (·.match_url) = acc.map (·.match_url) := by
        rw [List.map_map]
        apply list_map_congr
        intro b _
        by_cases he : b.match_url = m.match_url
        · simp [he, bumpBucket_match_url]
        · simp [he]
      rw [ih _ (by rw [hurls]; exact hnd)]
      have hfirst : (acc.map (fun b =>
          if b.match_url = m.match_url then bumpBucket n b m else b)).map
            (fun b => foldBucket n b (recsFor b.match_url rest)) =
          acc.map (fun b => foldBucket n b (recsFor b.match_url (m :: rest))) := by
        rw [List.map_map]
        apply list_map_congr
        intro b _
        by_cases he : b.match_url = m.match_url
        · simp only [Function.comp_apply, if_pos he, bumpBucket_match_url]
          rw [recsFor_cons_eq b.match_url m rest he.symm]
          rfl
        · simp only [Function.comp_apply, if_neg he]
          rw [recsFor_cons_ne b.match_url m rest (fun hx => he hx.symm)]
      have hkeys : newKeysOf (m :: rest) (acc.map (·.match_url)) =
          newKeysOf rest (acc.map (·.match_url)) := by
        simp [newKeysOf, hmem]
      have htail : (newKeysOf rest (acc.map (·.match_url))).map
          (newBucket player n rest) =
          (newKeysOf (m :: rest) (acc.map (·.match_url))).map
            (newBucket player n (m :: rest)) := by
        rw [hkeys]
        apply list_map_congr
        intro k hk
        have hkne : ¬ m.match_url = k := by
          intro he
          exact newKeysOf_not_mem_seen rest _ k hk (he ▸ hmem)
        exact (newBucket_cons_ne player n m rest k hkne).symm
      rw [hurls, hfirst, htail]
    · rw [updateBuckets_not_mem player n m acc hmem]
      have hb0url : (bumpBucket n (freshBucket player m) m).match_url =
          m.match_url := by
        rw [bumpBucket_match_url]; rfl
      have hnd2 : ((acc ++ [bumpBucket n (freshBucket player m) m]).map
          (·.match_url)).Nodup := by
        rw [List.map_append]
        rw [List.nodup_append]
        refine ⟨hnd, by simp, ?_⟩
        intro x hx
        simp only [List.map_cons, List.map_nil, List.mem_singleton, hb0url]
        intro hy
        rw [hy] at hx
        exact hmem hx
      rw [ih _ hnd2]
      have hseen : (newKeysOf rest
          ((acc ++ [bumpBucket n (freshBucket player m) m]).map (·.match_url))) =
          newKeysOf rest (m.match_url :: acc.map (·.match_url)) := by
        apply newKeysOf_seen_congr
        intro k
        simp [hb0url, or_comm]
      have hkeys : newKeysOf (m :: rest) (acc.map (·.match_url)) =
          m.match_url :: newKeysOf rest (m.match_url :: acc.map (·.match_url)) := by
        simp [newKeysOf, hmem]
      have hfirst : acc.map (fun b => foldBucket n b (recsFor b.match_url rest)) =
          acc.map (fun b => foldBucket n b (recsFor b.match_url (m :: rest))) := by
        apply list_map_congr
        intro b hb
        have hbne : ¬ m.match_url = b.match_url := by
          intro he
          exact hmem (he ▸ List.mem_map_of_mem (·.match_url) hb)
        rw [recsFor_cons_ne b.match_url m rest hbne]
      have hmid : (fun b => foldBucket n b (recsFor b.match_url rest))
            (bumpBucket n (freshBucket player m) m) =
          newBucket player n (m :: rest) m.match_url := by
        unfold newBucket
        have hfind : (m :: rest).find? (fun r => r.match_url = m.match_url) =
            some m := by
          apply List.find?_cons_of_pos
          simp
        rw [hfind]
        rw [recsFor_cons_eq m.match_url m rest rfl]
        show foldBucket n _ (recsFor _ rest) = _
        rw [hb0url]
        rfl
      have htail : (newKeysOf rest
            (m.match_url :: acc.map (·.match_url))).map (newBucket player n rest) =
          (newKeysOf rest (m.match_url :: acc.map (·.match_url))).map
            (newBucket player n (m :: rest)) := by
        apply list_map_congr
        intro k hk
        have hkne : ¬ m.match_url = k := by
          intro he
          exact newKeysOf_not_mem_seen rest _ k hk
            (he ▸ List.mem_cons_self m.match_url _)
        exact (newBucket_cons_ne player n m rest k hkne).symm
      rw [hseen, hkeys, htail, List.map_append, hfirst, List.map_cons]
      rw [show foldBucket n (bumpBucket n (freshBucket player m) m)
          (recsFor (bumpBucket n (freshBucket player m) m).match_url rest) =
          newBucket player n (m :: rest) m.match_url from hmid]
      simp

lemma buildBuckets_eq (player : Str) (n : Nat) (recs : List MapRecord) :
    buildBuckets player n recs =
      (newKeysOf recs []).map (newBucket player n recs) := by
  unfold buildBuckets
  rw [buildBuckets_aux player n recs [] (by simp)]
  simp

lemma group_eq_spec (recs : List MapRecord) (player : Str) (n : Nat) :
    group_kills_by_match recs player n = groupSpec recs player n := by
  unfold group_kills_by_match groupSpec
  rw [buildBuckets_eq, List.map_map, filter_map_eq_filterMap]
  unfold firstSeenUrls
  apply list_filterMap_congr
  intro k hk
  obtain ⟨r, hrmem, hrk⟩ := newKeysOf_exists_rec recs [] k hk
  have hsome : (recs.find? (fun r => r.match_url = k)).isSome := by
    rw [List.find?_isSome]
    exact ⟨r, hrmem, by simp [hrk]⟩
  obtain ⟨r0, hfind⟩ := Option.isSome_iff_exists.mp hsome
  have hr0k : r0.match_url = k := by
    have := List.find?_some hfind
    simpa using this
  rw [hfind]
  have hnb : newBucket player n recs k =
      foldBucket n (freshBucket player r0) (recsFor k recs) := by
    unfold newBucket
    rw [hfind]
  obtain ⟨hkills, hcount⟩ :=
    foldBucket_kills n (recsFor k recs) (freshBucket player r0) rfl
  have hkills2 : (foldBucket n (freshBucket player r0)
      (recsFor k recs)).map_kills = ((recsFor k recs).take n).map toKill := by
    rw [hkills]
    simp [freshBucket]
  obtain ⟨hpl, hti, hda, hur⟩ := foldBucket_meta n (recsFor k recs)
    (freshBucket player r0)
  have hsummary : finalizeBucket (newBucket player n recs k) =
      (⟨player, r0.match_title, r0.match_date, k,
        ((recsFor k recs).take n).map toKill,
        (((recsFor k recs).take n).map toKill).length,
        ((((recsFor k recs).take n).map toKill).map (·.kills)).sum⟩ :
        MatchSummary) := by
    rw [hnb]
    unfold finalizeBucket
    rw [hkills2] at hcount
    rw [hpl, hti, hda, hur, hkills2, hcount]
    simp [freshBucket, hr0k]
  have hkept : ((recsFor k recs).take n).map toKill =
      ((recs.filter (fun r => r.match_url = k)).take n).map
        (fun r => (⟨r.map, r.agent, r.kills⟩ : MapKill)) := rfl
  simp only [Function.comp_apply, hsummary, hkept]
  by_cases hcond :
      (((recs.filter (fun r => r.match_url = k)).take n).map
        (fun r => (⟨r.map, r.agent, r.kills⟩ : MapKill))).length = n ∧
      0 < ((((recs.filter (fun r => r.match_url = k)).take n).map
        (fun r => (⟨r.map, r.agent, r.kills⟩ : MapKill))).map (·.kills)).sum
  · rw [if_pos ?side1, if_pos hcond]
    case side1 =>
      rw [Bool.and_eq_true]
      exact ⟨decide_eq_true hcond.1, decide_eq_true hcond.2⟩
  · rw [if_neg ?side2, if_neg hcond]
    case side2 =>
      intro hb
      apply hcond
      constructor
      · have := (Bool.and_eq_true _ _).mp hb |>.1
        simpa using this
      · have := (Bool.and_eq_true _ _).mp hb |>.2
        simpa using this

/-- C1: `group_kills_by_match` with `max_maps = 2` groups the records by
match identifier in first-seen order, keeps at most the first 2 records
encountered per match in insertion order, sets each total to the sum of the
kept kill counts, and returns exactly the groups with 2 kept maps and a
strictly positive total — which is what `groupSpec`, written from the
claim's words, computes. -/
theorem group_kills_by_match_correct (recs : List MapRecord) (player : Str) :
    group_kills_by_match recs player 2 = groupSpec recs player 2 :=
  group_eq_spec recs player 2

/-! ## Name Normalizer properties (claim C8) -/

lemma char_toNat_ofNat_valid (n : Nat) (h : n.isValidChar) :
    (Char.ofNat n).toNat = n := by
  simp only [Char.ofNat, dif_pos h, Char.ofNatAux, Char.toNat]
  rfl

lemma isSepChar_false_mid (c : Char) (h1 : 65 ≤ c.toNat) (_h2 : c.toNat ≤ 122)
    (h3 : c.toNat ≠ 95) : isSepChar c = false := by
  have hs : c ≠ ' ' := by intro he; rw [he] at h1; revert h1; decide
  have hd : c ≠ '.' := by intro he; rw [he] at h1; revert h1; decide
  have hh : c ≠ '-' := by intro he; rw [he] at h1; revert h1; decide
  have hu : c ≠ '_' := by intro he; rw [he] at h3; revert h3; decide
  have ha : c ≠ '@' := by intro he; rw [he] at h1; revert h1; decide
  simp [isSepChar, hs, hd, hh, hu, ha]

lemma isPySpace_false_ge (c : Char) (h : 33 ≤ c.toNat) : isPySpace c = false := by
  have h1 : c ≠ ' ' := by intro he; rw [he] at h; revert h; decide
  have h2 : c ≠ '\t' := by intro he; rw [he] at h; revert h; decide
  have h3 : c ≠ '\n' := by intro he; rw [he] at h; revert h; decide
  have h4 : c ≠ '\r' := by intro he; rw [he] at h; revert h; decide
  have h5 : c ≠ '\x0b' := by intro he; rw [he] at h; revert h; decide
  have h6 : c ≠ '\x0c' := by intro he; rw [he] at h; revert h; decide
  simp [isPySpace, h1, h2, h3, h4, h5, h6]

lemma toLower_toNat_of_upper (c : Char) (h1 : 65 ≤ c.toNat) (h2 : c.toNat ≤ 90) :
    c.toLower.toNat = c.toNat + 32 := by
  show (if c.toNat ≥ 65 ∧ c.toNat ≤ 90 then Char.ofNat (c.toNat + 32) else c).toNat = _
  rw [if_pos ⟨h1, h2⟩]
  exact char_toNat_ofNat_valid _ (Or.inl (by omega))

lemma toLower_eq_self_of_not_upper (c : Char)
    (h : ¬ (65 ≤ c.toNat ∧ c.toNat ≤ 90)) : c.toLower = c := by
  show (if c.toNat ≥ 65 ∧ c.toNat ≤ 90 then Char.ofNat (c.toNat + 32) else c) = c
  rw [if_neg h]

lemma isSepChar_toLower (c : Char) : isSepChar c.toLower = isSepChar c := by
  by_cases h : 65 ≤ c.toNat ∧ c.toNat ≤ 90
  · have ht := toLower_toNat_of_upper c h.1 h.2
    rw [isSepChar_false_mid c.toLower (by omega) (by omega) (by omega),
      isSepChar_false_mid c (by omega) (by omega) (by omega)]
  · rw [toLower_eq_self_of_not_upper c h]

lemma isPySpace_toLower (c : Char) : isPySpace c.toLower = isPySpace c := by
  by_cases h : 65 ≤ c.toNat ∧ c.toNat ≤ 90
  · have ht := toLower_toNat_of_upper c h.1 h.2
    rw [isPySpace_false_ge c.toLower (by omega), isPySpace_false_ge c (by omega)]
  · rw [toLower_eq_self_of_not_upper c h]

lemma filter_dropWhile_eq (p q : Char → Bool) :
    ∀ (l : Str), (∀ c ∈ l, q c = true → p c = false) →
      (l.dropWhile q).filter p = l.filter p := by
  intro l
  induction l with
  | nil => intro _; rfl
  | cons c t ih =>
    intro h
    cases hq : q c with
    | true =>
      rw [List.dropWhile_cons_of_pos hq, List.filter_cons,
        if_neg (by rw [h c (List.mem_cons_self c t) hq]; simp)]
      exact ih (fun x hx => h x (List.mem_cons_of_mem c hx))
    | false =>
      rw [List.dropWhile_cons_of_neg (by simp [hq])]

lemma filter_nonsep_pyStrip (s : Str)
    (h : ∀ c ∈ s, isPySpace c = true → c = ' ') :
    (pyStrip s).filter (fun c => !(isSepChar c)) =
      s.filter (fun c => !(isSepChar c)) := by
  have hkill : ∀ c ∈ s, isPySpace c = true → (!(isSepChar c)) = false := by
    intro c hc hsp
    rw [h c hc hsp]
    decide
  unfold pyStrip
  rw [List.filter_reverse, filter_dropWhile_eq _ _ _ ?h2, List.filter_reverse,
    List.reverse_reverse, filter_dropWhile_eq _ _ _ hkill]
  case h2 =>
    intro c hc
    have hmem : c ∈ s :=
      (List.dropWhile_sublist isPySpace).subset (List.mem_reverse.mp hc)
    exact hkill c hmem

lemma normalize_eq_core (s : Str) (h : spacesOnly s = true) :
    normalize_name s = coreChars s := by
  have hall : ∀ c ∈ s, isPySpace c = true → c = ' ' := by
    intro c hc hsp
    have := (List.all_eq_true.mp h) c hc
    simp only [hsp, Bool.not_true, Bool.false_or, decide_eq_true_eq] at this
    exact this
  unfold normalize_name coreChars
  have hlow : ∀ c ∈ lowerStr s, isPySpace c = true → c = ' ' := by
    intro c hc hsp
    obtain ⟨a, ha, hac⟩ := List.mem_map.mp hc
    rw [← hac] at hsp ⊢
    rw [isPySpace_toLower a] at hsp
    rw [hall a ha hsp]
    decide
  rw [filter_nonsep_pyStrip (lowerStr s) hlow]
  unfold lowerStr
  rw [List.filter_map]
  congr 1
  apply List.filter_congr
  intro c _
  simp [Function.comp, isSepChar_toLower]

/-- C8 counterexample: `".\tx"` and `"\tx"` differ only by one occurrence of
the separator character `'.'` (their case-folded non-separator subsequences
agree), yet `normalize_name` maps them to `"\tx"` and `"x"` respectively:
the Python code strips leading whitespace before removing separators, so a
leading separator shields a tab from `strip()`. -/
theorem normalize_name_sep_counterexample :
    coreChars ['.', '\t', 'x'] = coreChars ['\t', 'x'] ∧
      normalize_name ['.', '\t', 'x'] ≠ normalize_name ['\t', 'x'] := by
  decide

/-- C8 amended: for all name pairs that differ only by letter case, internal
spacing, or the separator characters `. - _ @`, `normalize_name` agrees —
provided every whitespace character occurring in the names is a plain space
(the counterexample shows the claim fails when other whitespace, e.g. a tab,
is present). -/
theorem normalize_name_sep_invariant (a b : Str)
    (ha : spacesOnly a = true) (hb : spacesOnly b = true)
    (h : coreChars a = coreChars b) :
    normalize_name a = normalize_name b := by
  rw [normalize_eq_core a ha, normalize_eq_core b hb, h]

theorem normalize_name_sep_invariant_witness :
    normalize_name "J. Doe".toList = normalize_name "j-DOE_".toList :=
  normalize_name_sep_invariant "J. Doe".toList "j-DOE_".toList
    (by decide) (by decide) (by decide)

/-! ## Aggregator purity (claim C9) -/

/-- One call of `group_kills_by_match` with its input list threaded through
explicitly.  The Python loop (src/scraper/vlr.py lines 901-919) only reads
fields of the input dicts and appends freshly built dicts to the local
`match_data`; it performs no write to `all_maps` or to the records inside
it, so the faithful translation returns the input component unchanged. -/
def group_kills_by_match_run (all_maps : List MapRecord) (player : Str)
    (maxMaps : Nat) : List MatchSummary × List MapRecord :=
  (group_kills_by_match all_maps player maxMaps, all_maps)

/-- C9: running the aggregator twice in sequence, feeding the state left by
the first call into the second, yields identical summary lists, and the
input record list is left unmodified by both calls. -/
theorem group_kills_by_match_idempotent (all_maps : List MapRecord)
    (player : Str) :
    (group_kills_by_match_run all_maps player 2).1 =
        (group_kills_by_match_run
          (group_kills_by_match_run all_maps player 2).2 player 2).1 ∧
      (group_kills_by_match_run
          (group_kills_by_match_run all_maps player 2).2 player 2).2 =
        all_maps :=
  ⟨rfl, rfl⟩

/-! ## Rolling averages (claim C2) -/

/-- Python `round(x, 2)` modelled on exact rationals: scale by 100, round
half to even, unscale. -/
def roundHalfEven (q : ℚ) : ℤ :=
  if q - ⌊q⌋ < 1/2 then ⌊q⌋
  else if 1/2 < q - ⌊q⌋ then ⌊q⌋ + 1
  else if ⌊q⌋ % 2 = 0 then ⌊q⌋ else ⌊q⌋ + 1

/-- Two-decimal rounding used by `round(..., 2)`. -/
def round2 (q : ℚ) : ℚ := (roundHalfEven (q * 100) : ℚ) / 100

/-- Loop body of `compute_averages` (src/app.py lines 62-63, identical in
src/main.py lines 83-84): `round(sum(kills[:w]) / w, 2) if len(kills) >= w
else None`. -/
def average_for (kills : List Nat) (w : Nat) : Option ℚ :=
  if w ≤ kills.length then
    some (round2 ((((kills.take w).sum : Nat) : ℚ) / (w : ℚ)))
  else none

/-- `compute_averages` (src/app.py lines 59-64; src/main.py lines 80-85):
the `averages` dict keyed by window size. -/
def compute_averages (good_matches : List MatchSummary)
    (windows : List Nat := [5, 10, 25]) : List (Nat × Option ℚ) :=
  windows.map (fun w => (w, average_for (good_matches.map (·.total_kills)) w))

lemma average_for_none_iff (kills : List Nat) (w : Nat) :
    average_for kills w = none ↔ kills.length < w := by
  unfold average_for
  split
  next h => simp; omega
  next h => simp; omega

lemma average_for_of_le (kills : List Nat) (w : Nat) (h : w ≤ kills.length) :
    average_for kills w =
      some (round2 ((((kills.take w).sum : Nat) : ℚ) / (w : ℚ))) := by
  unfold average_for
  rw [if_pos h]

/-- C2: for each window `w ∈ {5, 10, 25}` the computed value is `None`
exactly when fewer than `w` eligible matches exist, and otherwise equals
`round(sum(first w totals) / w, 2)`. -/
theorem compute_averages_correct (good : List MatchSummary) (w : Nat)
    (hw : w ∈ [5, 10, 25]) :
    ((compute_averages good).lookup w = some none ↔ good.length < w) ∧
      (w ≤ good.length →
        (compute_averages good).lookup w =
          some (some (round2
            (((((good.map (·.total_kills)).take w).sum : Nat) : ℚ) / (w : ℚ))))) := by
  have hlen : (good.map (·.total_kills)).length = good.length :=
    List.length_map good _
  fin_cases hw
  · refine ⟨?_, ?_⟩
    · rw [show (compute_averages good).lookup 5 =
          some (average_for (good.map (·.total_kills)) 5) from rfl]
      rw [Option.some_inj]
      rw [average_for_none_iff, hlen]
    · intro h
      rw [show (compute_averages good).lookup 5 =
          some (average_for (good.map (·.total_kills)) 5) from rfl]
      rw [average_for_of_le _ _ (by omega)]
  · refine ⟨?_, ?_⟩
    · rw [show (compute_averages good).lookup 10 =
          some (average_for (good.map (·.total_kills)) 10) from rfl]
      rw [Option.some_inj]
      rw [average_for_none_iff, hlen]
    · intro h
      rw [show (compute_averages good).lookup 10 =
          some (average_for (good.map (·.total_kills)) 10) from rfl]
      rw [average_for_of_le _ _ (by omega)]
  · refine ⟨?_, ?_⟩
    · rw [show (compute_averages good).lookup 25 =
          some (average_for (good.map (·.total_kills)) 25) from rfl]
      rw [Option.some_inj]
      rw [average_for_none_iff, hlen]
    · intro h
      rw [show (compute_averages good).lookup 25 =
          some (average_for (good.map (·.total_kills)) 25) from rfl]
      rw [average_for_of_le _ _ (by omega)]

/-- Five concrete eligible summaries used by the C2 witness. -/
def witnessSummaries : List MatchSummary :=
  [17, 25, 30, 41, 38].map (fun t =>
    ⟨"p".toList, "A vs B".toList, "2024-01-01".toList, "u".toList, [], 2, t⟩)

theorem compute_averages_correct_witness :
    (compute_averages witnessSummaries).lookup 5 =
        some (some ((302 : ℚ) / 10)) ∧
      (compute_averages witnessSummaries).lookup 10 = some none := by
  constructor
  · have h := (compute_averages_correct witnessSummaries 5 (by decide)).2
      (by decide)
    rw [h]
    norm_num [witnessSummaries, round2, roundHalfEven]
  · have h := (compute_averages_correct witnessSummaries 10 (by decide)).1
    rw [h]
    decide

/-! ## String helpers shared by the scraper embeddings -/

/-- Worker for `removeAllSub`: structural recursion on a fuel bound (each
step consumes at least one character, so `fuel = s.length` suffices and the
zero-fuel arm is never reached on the initial call). -/
def removeAllSubFuel (pat : Str) : Nat → Str → Str
  | _, [] => []
  | 0, s => s
  | fuel + 1, c :: rest =>
    if pat ≠ [] ∧ isPrefixL pat (c :: rest) then
      removeAllSubFuel pat fuel (rest.drop (pat.length - 1))
    else c :: removeAllSubFuel pat fuel rest

/-- Python `s.replace(pat, "")`: remove every (left-to-right,
non-overlapping) occurrence of `pat`. -/
def removeAllSub (pat s : Str) : Str := removeAllSubFuel pat s.length s

/-- Worker for `splitOnSub`, carrying the current piece reversed; fuel as in
`removeAllSubFuel`. -/
def splitOnSubFuel (sep : Str) : Nat → Str → Str → List Str
  | _, [], acc => [acc.reverse]
  | 0, s, acc => [acc.reverse ++ s]
  | fuel + 1, c :: rest, acc =>
    if sep ≠ [] ∧ isPrefixL sep (c :: rest) then
      acc.reverse :: splitOnSubFuel sep fuel (rest.drop (sep.length - 1)) []
    else splitOnSubFuel sep fuel rest (c :: acc)

/-- Python `s.split(sep)` for a non-empty separator. -/
def splitOnSub (sep s : Str) : List Str := splitOnSubFuel sep s.length s []

/-! ## Profile Resolver (claims C4, C5; src/scraper/vlr.py lines 33-71) -/

def BASE_URL : Str := "https://www.vlr.gg".toList

/-- One parsed `a.wf-module-item.search-item` tag: its `href` attribute
(`''` when absent) and the text of its `div.search-item-title` child, when
that child exists. -/
structure SearchEntry where
  href : Str
  title : Option Str
deriving DecidableEq, Repr

/-- Outcome of the un-guarded `requests.get` at src/scraper/vlr.py line 35:
the call can raise a transport exception, return a non-OK HTTP response, or
return a page whose parsed search-result list is `entries`. -/
inductive SearchFetch where
  | raised
  | httpError
  | okResults (entries : List SearchEntry)
deriving DecidableEq, Repr

/-- The URL built from a selected entry's `href` (src/scraper/vlr.py lines
50-59 and 62-69): direct `/player/` links are prefixed with the base URL;
otherwise the part after the first `/player/` is re-anchored; otherwise the
raw href is appended to the base URL. -/
def buildPlayerUrl (href : Str) : Str :=
  if isPrefixL "/player/".toList href then BASE_URL ++ href
  else if listContains "/player/".toList href then
    let parts := splitOnSub "/player/".toList href
    if 1 < parts.length then BASE_URL ++ "/player/".toList ++ parts.getD 1 []
    else BASE_URL ++ href
  else BASE_URL ++ href

/-- An entry qualifies when it has a title div and the normalized query is a
substring of its normalized display name (src/scraper/vlr.py lines 44-49). -/
def entryQualifies (nq : Str) (e : SearchEntry) : Bool :=
  match e.title with
  | none => false
  | some t => listContains nq (normalize_name t)

/-- The `for tag in player_links` loop (src/scraper/vlr.py lines 44-59):
return the URL of the first qualifying entry, skipping entries without a
title div. -/
def searchLoop (nq : Str) : List SearchEntry → Option Str
  | [] => none
  | e :: rest =>
    match e.title with
    | none => searchLoop nq rest
    | some t =>
      if listContains nq (normalize_name t) then some (buildPlayerUrl e.href)
      else searchLoop nq rest

/-- `find_player_url` (src/scraper/vlr.py lines 33-71).  The outbound
`requests.get` has no try/except around it, so a raised transport exception
propagates (`Except.error`); a non-OK response returns `None`; otherwise the
first qualifying entry wins, with the first entry as fallback and `None` on
an empty result list. -/
def find_player_url (player_name : Str) (fetch : SearchFetch) :
    Except Unit (Option Str) :=
  match fetch with
  | .raised => .error ()
  | .httpError => .ok none
  | .okResults entries =>
    match searchLoop (normalize_name player_name) entries with
    | some url => .ok (some url)
    | none =>
      match entries with
      | [] => .ok none
      | e0 :: _ => .ok (some (buildPlayerUrl e0.href))

lemma searchLoop_eq_find (nq : Str) :
    ∀ entries, searchLoop nq entries =
      (entries.find? (entryQualifies nq)).map (fun e => buildPlayerUrl e.href) := by
  intro entries
  induction entries with
  | nil => rfl
  | cons e rest ih =>
    cases ht : e.title with
    | none =>
      have hq : entryQualifies nq e = false := by simp [entryQualifies, ht]
      rw [List.find?_cons_of_neg _ (by simp [hq])]
      simp only [searchLoop, ht]
      exact ih
    | some t =>
      by_cases hc : listContains nq (normalize_name t) = true
      · have hq : entryQualifies nq e = true := by simp [entryQualifies, ht, hc]
        rw [List.find?_cons_of_pos _ hq]
        simp [searchLoop, ht, hc]
      · have hq : entryQualifies nq e = false := by
          simp only [entryQualifies, ht]
          simpa using hc
        rw [List.find?_cons_of_neg _ (by simp [hq])]
        simp only [searchLoop, ht, if_neg hc]
        exact ih

/-- C4: on a completed search with result list `entries`, `find_player_url`
returns the first entry whose normalized display name contains the
normalized query; if none qualifies, the first search result; and `None` on
an empty result list. -/
theorem find_player_url_selection (player_name : Str)
    (entries : List SearchEntry) (_hne : player_name ≠ []) :
    find_player_url player_name (.okResults entries) =
      .ok (match entries.find? (entryQualifies (normalize_name player_name)) with
           | some e => some (buildPlayerUrl e.href)
           | none => entries.head?.map (fun e => buildPlayerUrl e.href)) := by
  show (match searchLoop (normalize_name player_name) entries with
    | some url => Except.ok (some url)
    | none => match entries with
      | [] => Except.ok none
      | e0 :: _ => Except.ok (some (buildPlayerUrl e0.href))) = _
  rw [searchLoop_eq_find]
  cases hf : entries.find? (entryQualifies (normalize_name player_name)) with
  | some e => rfl
  | none =>
    cases entries with
    | nil => rfl
    | cons e0 rest => rfl

theorem find_player_url_selection_witness :
    find_player_url "bob".toList (SearchFetch.okResults
        [⟨"/player/1/ace".toList, some "Ace".toList⟩,
         ⟨"/player/2/bob".toList, some "BigBob".toList⟩]) =
      .ok (some "https://www.vlr.gg/player/2/bob".toList) := by
  rw [find_player_url_selection "bob".toList
    [⟨"/player/1/ace".toList, some "Ace".toList⟩,
     ⟨"/player/2/bob".toList, some "BigBob".toList⟩] (by decide)]
  rfl

/-- C5 counterexample: a transport-level exception from the un-guarded
`requests.get` (src/scraper/vlr.py line 35 — unlike `fetch_soup`, there is
no try/except and no timeout) propagates out of `find_player_url`: the
function raises to its caller instead of returning the NotFound signal. -/
theorem find_player_url_raises_counterexample :
    find_player_url "x".toList SearchFetch.raised = .error () ∧
      find_player_url "x".toList SearchFetch.raised ≠ .ok none := by
  refine ⟨rfl, ?_⟩
  intro h
  exact Except.noConfusion h

/-- C5 amended: on an HTTP-error response or an empty search-result list,
`find_player_url` returns the NotFound signal (`None`) without raising; a
transport-level exception from the underlying GET, however, propagates to
the caller. -/
theorem find_player_url_error_paths (player_name : Str) :
    find_player_url player_name SearchFetch.httpError = .ok none ∧
      find_player_url player_name (SearchFetch.okResults []) = .ok none ∧
      find_player_url player_name SearchFetch.raised = .error () :=
  ⟨rfl, rfl, rfl⟩

/-! ## Match page parsing (claim C10; src/scraper/vlr.py lines 773-896) -/

/-- Python `s.split()` (no argument): split on whitespace runs, dropping
empty pieces; `acc` carries the current word reversed. -/
def splitWsGo : Str → Str → List Str
  | [], acc => if acc = [] then [] else [acc.reverse]
  | c :: rest, acc =>
    if isPySpace c then
      if acc = [] then splitWsGo rest [] else acc.reverse :: splitWsGo rest []
    else splitWsGo rest (c :: acc)

def splitWs (s : Str) : List Str := splitWsGo s []

/-- `" ".join(map_label.text.replace("PICK", "").split()).strip()`
(src/scraper/vlr.py line 807). -/
def cleanMapName (raw : Str) : Str :=
  pyStrip (List.intercalate [' '] (splitWs (removeAllSub "PICK".toList raw)))

/-- One row of a map-section stat table.  `name` is the resolved player-cell
name (`title`/`data-title` attribute or cell text, src/scraper/vlr.py line
839), `none` when no player cell was found; `agent`/`kills` are the values
produced by the extraction fallback chains of lines 850-884 (kills default
to 0 when nothing parses). -/
structure SectionRow where
  name : Option Str
  agent : Str
  kills : Nat
deriving DecidableEq, Repr

/-- One `div.vm-stats-game` map section: the raw text of the first matching
map-label selector (lines 796-808), `none` when no selector matches, and
the stat rows of the section. -/
structure MapSection where
  mapLabel : Option Str
  rows : List SectionRow
deriving DecidableEq, Repr

/-- A fetched match page as far as `parse_match_page` reads it:
`get_match_title`, `get_match_date` and the map sections. -/
structure MatchPage where
  title : Str
  date : Str
  sections : List MapSection
deriving DecidableEq, Repr

/-- Row acceptance (src/scraper/vlr.py lines 835-847): skip rows without a
player cell or name; accept on exact normalized equality or substring
containment in either direction. -/
def rowMatches (np : Str) (r : SectionRow) : Bool :=
  match r.name with
  | none => false
  | some n =>
    if n = [] then false
    else
      let nn := normalize_name n
      nn = np || listContains np nn || listContains nn np

/-- The row loop with its `break` (src/scraper/vlr.py lines 820-894): only
the first matching row of a section is used. -/
def findPlayerRow (np : Str) : List SectionRow → Option SectionRow
  | [] => none
  | r :: rest => if rowMatches np r then some r else findPlayerRow np rest

/-- The skip condition for a section's map label (src/scraper/vlr.py line
810): no label found, or the cleaned name empty, or its lower-casing equal
to `"all maps"` or `"<unknown map>"`. -/
def badMapLabel (s : MapSection) : Bool :=
  match s.mapLabel with
  | none => true
  | some raw =>
    let mn := cleanMapName raw
    mn = [] || lowerStr mn = "all maps".toList ||
      lowerStr mn = "<unknown map>".toList

/-- The records a single map section contributes (src/scraper/vlr.py lines
794-894): nothing when the label is skipped, else the first matching row's
record, if any. -/
def sectionRecords (match_url page_title page_date np : Str)
    (s : MapSection) : List MapRecord :=
  match s.mapLabel with
  | none => []
  | some raw =>
    let mn := cleanMapName raw
    if mn = [] || lowerStr mn = "all maps".toList ||
        lowerStr mn = "<unknown map>".toList then []
    else
      match findPlayerRow np s.rows with
      | none => []
      | some r => [⟨mn, r.agent, r.kills, match_url, page_title, page_date⟩]

/-- `parse_match_page` (src/scraper/vlr.py lines 773-896) on a fetched page:
the outer for-loop appends each section's contribution to `maps_data`. -/
def parse_match_page (match_url player_name : Str) (page : MatchPage) :
    List MapRecord :=
  page.sections.foldl (fun acc s =>
    acc ++ sectionRecords match_url page.title page.date
      (normalize_name player_name) s) []

lemma foldl_append_bind {α β : Type} (f : α → List β) :
    ∀ (l : List α) (acc : List β),
      l.foldl (fun a s => a ++ f s) acc = acc ++ l.flatMap f := by
  intro l
  induction l with
  | nil => intro acc; simp
  | cons s t ih =>
    intro acc
    rw [List.foldl_cons, ih, List.flatMap_cons, List.append_assoc]

/-- C10: `parse_match_page` is the concatenation of per-section
contributions; every section contributes at most one record; and a section
whose map label is missing, empty, or reads `"All Maps"` (case-insensitive;
the code also skips the `"<unknown map>"` placeholder) contributes no
record, so a page's aggregate all-maps table is never counted. -/
theorem parse_match_page_section_bound (match_url player_name : Str)
    (page : MatchPage) :
    parse_match_page match_url player_name page =
        page.sections.flatMap (sectionRecords match_url page.title page.date
          (normalize_name player_name)) ∧
      (∀ s : MapSection, (sectionRecords match_url page.title page.date
        (normalize_name player_name) s).length ≤ 1) ∧
      (∀ s : MapSection, badMapLabel s = true →
        sectionRecords match_url page.title page.date
          (normalize_name player_name) s = []) := by
  refine ⟨?_, ?_, ?_⟩
  · unfold parse_match_page
    rw [foldl_append_bind]
    rfl
  · intro s
    unfold sectionRecords
    cases s.mapLabel with
    | none => simp
    | some raw =>
      simp only
      split
      · simp
      · cases findPlayerRow (normalize_name player_name) s.rows <;> simp
  · intro s hbad
    unfold sectionRecords
    unfold badMapLabel at hbad
    cases hml : s.mapLabel with
    | none => rfl
    | some raw =>
      rw [hml] at hbad
      simp only at hbad ⊢
      rw [if_pos hbad]

theorem parse_match_page_section_bound_witness :
    sectionRecords "u".toList "T".toList "d".toList
        (normalize_name "p".toList)
        ⟨some "All Maps".toList, [⟨some "p".toList, "jett".toList, 12⟩]⟩ =
      [] :=
  (parse_match_page_section_bound "u".toList "p".toList
      ⟨"T".toList, "d".toList, []⟩).2.2
    ⟨some "All Maps".toList, [⟨some "p".toList, "jett".toList, 12⟩]⟩
    (by decide)

/-! ## Slate payload model (claims C3, C6, C7)

The upstream JSON is modelled with missing/None string fields collapsed to
`[]` (both are falsy in every use the code makes of them) and numeric
fields as `Option` (absent key = `none`).  Insertion-ordered Python dicts
are association lists with unique keys. -/

/-- One element of a line's `options` array. -/
structure OptionEntry where
  american_price : Option Int
deriving DecidableEq, Repr

/-- `item["over_under"]["appearance_stat"]` as far as the code reads it. -/
structure AppearanceStat where
  appearance_id : Str
deriving DecidableEq, Repr

/-- `item["over_under"]`. -/
structure OverUnder where
  title : Str
  appearance_stat : AppearanceStat
deriving DecidableEq, Repr

/-- One betting line of `over_under_lines`. -/
structure OULine where
  over_under : Option OverUnder
  stat_value : Option ℚ
  options : List OptionEntry
deriving DecidableEq, Repr

/-- One element of `appearances`. -/
structure Appearance where
  id : Str
  player_id : Str
  team_id : Str
  match_id : Str
deriving DecidableEq, Repr

/-- One element of `players`. -/
structure PlayerRec where
  id : Str
  last_name : Str
  team_id : Str
deriving DecidableEq, Repr

/-- One element of `games`. -/
structure Game where
  id : Str
  home_team_id : Str
  away_team_id : Str
  full_team_names_title : Str
  title : Str
  short_title : Str
deriving DecidableEq, Repr

/-- The composite slate schema: separate lists for lines, appearances,
player identities and games. -/
structure SlateDict where
  over_under_lines : List OULine
  appearances : List Appearance
  players : List PlayerRec
  games : List Game
deriving DecidableEq, Repr

/-- Python dict assignment on an insertion-ordered association list:
overwrite the (unique) existing binding in place, else append. -/
def dictSet {α : Type} : List (Str × α) → Str → α → List (Str × α)
  | [], k, v => [(k, v)]
  | p :: d, k, v =>
    if p.1 = k then (k, v) :: d else p :: dictSet d k v

/-- Python `dict.get`. -/
def dictGet {α : Type} (d : List (Str × α)) (k : Str) : Option α :=
  (d.find? (fun p => p.1 = k)).map (·.2)

/-- `player_to_team_id` (src/app.py lines 124-129). -/
def player_to_team_id (appearances : List Appearance) : List (Str × Str) :=
  appearances.foldl (fun d a =>
    if a.player_id ≠ [] ∧ a.team_id ≠ [] then dictSet d a.player_id a.team_id
    else d) []

/-- `player_id_to_name` (src/app.py lines 131-139): keyed by player id,
holding the stripped `last_name`. -/
def player_id_to_name (players : List PlayerRec) : List (Str × Str) :=
  players.foldl (fun d p =>
    if p.id ≠ [] ∧ pyStrip p.last_name ≠ [] then
      dictSet d p.id (pyStrip p.last_name)
    else d) []

/-- `player_id_to_team_id_direct` (src/app.py lines 133-141). -/
def player_id_to_team_id_direct (players : List PlayerRec) :
    List (Str × Str) :=
  players.foldl (fun d p =>
    if p.id ≠ [] ∧ p.team_id ≠ [] then dictSet d p.id p.team_id else d) []

/-- The `" vs "` split of a game's title with its fallback chain
(src/app.py lines 148-173): `full_team_names_title`, then `title`, then
`short_title`; both sides stripped. -/
def gameVsParts (g : Game) : Option (Str × Str) :=
  if listContains " vs ".toList g.full_team_names_title then
    let parts := splitOnSub " vs ".toList g.full_team_names_title
    if 2 ≤ parts.length then
      some (pyStrip (parts.getD 0 []), pyStrip (parts.getD 1 []))
    else none
  else if listContains " vs ".toList g.title then
    let parts := splitOnSub " vs ".toList g.title
    if 2 ≤ parts.length then
      some (pyStrip (parts.getD 0 []), pyStrip (parts.getD 1 []))
    else none
  else if listContains " vs ".toList g.short_title then
    let parts := splitOnSub " vs ".toList g.short_title
    if 2 ≤ parts.length then
      some (pyStrip (parts.getD 0 []), pyStrip (parts.getD 1 []))
    else none
  else none

/-- `team_id_to_name` (src/app.py lines 143-173).  (The follow-up loop at
lines 175-183 has an empty body — it only `break`s — and adds nothing.) -/
def team_id_to_name (games : List Game) : List (Str × Str) :=
  games.foldl (fun d g =>
    match gameVsParts g with
    | none => d
    | some (h, a) =>
      let d1 := if g.home_team_id ≠ [] then dictSet d g.home_team_id h else d
      if g.away_team_id ≠ [] then dictSet d1 g.away_team_id a else d1) []

/-- `player_name_to_team` (src/app.py lines 188-196): stores both the
stripped name and its lower-casing. -/
def player_name_to_team (appearances : List Appearance)
    (players : List PlayerRec) (games : List Game) : List (Str × Str) :=
  (player_to_team_id appearances).foldl (fun d pt =>
    match dictGet (player_id_to_name players) pt.1,
        dictGet (team_id_to_name games) pt.2 with
    | some pname, some tname =>
      if pname ≠ [] ∧ tname ≠ [] then
        let clean := pyStrip pname
        dictSet (dictSet d clean tname) (lowerStr clean) tname
      else d
    | _, _ => d) []

/-- The `for pid, pname in player_id_to_name.items()` search (src/app.py
lines 222-226 and 509-513): first id whose stripped stored name equals the
stripped query, exactly or case-insensitively. -/
def findPlayerId (pidName : List (Str × Str)) (player : Str) : Option Str :=
  (pidName.find? (fun p =>
    pyStrip p.2 = pyStrip player ∨
      lowerStr (pyStrip p.2) = lowerStr (pyStrip player))).map (·.1)

/-- Per-line team resolution (src/app.py lines 217-237): the direct
players-array route, falling back to the `player_name_to_team` map under
Python truthiness (`if not team`, `or`). -/
def resolveTeam (players : List PlayerRec) (games : List Game)
    (appearances : List Appearance) (player : Str) : Option Str :=
  let pn := pyStrip player
  let direct :=
    match findPlayerId (player_id_to_name players) player with
    | none => none
    | some pid =>
      match dictGet (player_id_to_team_id_direct players) pid with
      | none => none
      | some tid => dictGet (team_id_to_name games) tid
  let m := player_name_to_team appearances players games
  let fb :=
    match dictGet m pn with
    | some t => if t ≠ [] then some t else dictGet m (lowerStr pn)
    | none => dictGet m (lowerStr pn)
  match direct with
  | some t => if t ≠ [] then some t else fb
  | none => fb

/-- Per-line match-id resolution (src/app.py lines 240-247): look the
line's `appearance_id` up among the appearances. -/
def resolveMatchId (appearances : List Appearance) (ou : OverUnder) :
    Option Str :=
  if ou.appearance_stat.appearance_id ≠ [] then
    match appearances.find?
        (fun a => a.id = ou.appearance_stat.appearance_id) with
    | some a => some a.match_id
    | none => none
  else none

/-- One extracted `player_info` entry (src/app.py lines 249-256). -/
structure PlayerInfo where
  player : Str
  line : Option ℚ
  odds_over : Option Int
  odds_under : Option Int
  team : Option Str
  match_id : Option Str
deriving DecidableEq, Repr

/-- The market filter and field extraction over `over_under_lines`
(src/app.py lines 200-259): keep lines whose title contains
`"Kills on Maps 1+2 O/U"`; the player name is the title with the market
suffix removed, stripped. -/
def extractPlayerInfo (d : SlateDict) : List PlayerInfo :=
  d.over_under_lines.foldl (fun acc item =>
    match item.over_under with
    | none => acc
    | some ou =>
      if ou.title = [] then acc
      else if listContains "Kills on Maps 1+2 O/U".toList ou.title then
        let player := pyStrip (removeAllSub " Kills on Maps 1+2 O/U".toList
          ou.title)
        acc ++ [{ player := player
                  line := item.stat_value
                  odds_over := (item.options.get? 0).bind (·.american_price)
                  odds_under := (item.options.get? 1).bind (·.american_price)
                  team := resolveTeam d.players d.games d.appearances player
                  match_id := resolveMatchId d.appearances ou }]
      else acc) []

/-- One entry of `all_matches_info` (src/app.py lines 288-293). -/
structure MatchInfo where
  match_id : Str
  teams : List Str
  match_key : Str
deriving DecidableEq, Repr

/-- `all_matches_info` (src/app.py lines 264-299): built from the games
when both the player list and the games list are non-empty, keeping games
with a truthy id and both team names resolvable. -/
def allMatchesInfo (d : SlateDict) (player_info : List PlayerInfo) :
    List MatchInfo :=
  if 0 < player_info.length ∧ 0 < d.games.length then
    d.games.foldl (fun acc g =>
      match dictGet (team_id_to_name d.games) g.home_team_id,
          dictGet (team_id_to_name d.games) g.away_team_id with
      | some h, some a =>
        if g.id ≠ [] ∧ h ≠ [] ∧ a ≠ [] then
          acc ++ [⟨g.id, [h, a], h ++ " vs ".toList ++ a⟩]
        else acc
      | _, _ => acc) []
  else []

/-! ## Per-player scraping outcomes and result rows (claim C7) -/

/-- The network-determined outcome of the per-player scraping block
(src/app.py lines 309-426): `find_player_url` found nothing; the profile
page fetch failed; no match links were found; or scraping succeeded and the
pages yielded `all_maps` (per-match parse failures are swallowed at lines
382-385, so `all_maps` is simply what survived).  `raised` is an exception
escaping the block, handled at lines 427-453. -/
inductive ScrapeOutcome where
  | notFound
  | fetchFailed
  | noHistory
  | success (all_maps : List MapRecord)
  | raised
deriving DecidableEq, Repr

/-- One element of `results` (src/app.py lines 313-453), restricted to the
fields the claims are about; the scraped `team_url`/`vlr_url` strings are
omitted.  `matchId` mirrors the fact that only the success row (line 425)
carries a `'match_id'` key. -/
structure ResultRow where
  player : Str
  line : Option ℚ
  odds_over : Option Int
  odds_under : Option Int
  team : Option Str
  avg_5 : Option ℚ
  avg_10 : Option ℚ
  avg_25 : Option ℚ
  error : Option Str
  matchId : Option Str
  matches_analyzed : Option Nat
deriving DecidableEq, Repr

/-- The row appended for one `player_info` entry under a given scraping
outcome (src/app.py lines 303-453). -/
def processPlayer (info : PlayerInfo) (oc : ScrapeOutcome) : ResultRow :=
  match oc with
  | .notFound =>
    { player := info.player, line := info.line, odds_over := info.odds_over
      odds_under := info.odds_under, team := info.team
      avg_5 := none, avg_10 := none, avg_25 := none
      error := some "Player not found on VLR.gg".toList
      matchId := none, matches_analyzed := none }
  | .fetchFailed =>
    { player := info.player, line := info.line, odds_over := info.odds_over
      odds_under := info.odds_under, team := info.team
      avg_5 := none, avg_10 := none, avg_25 := none
      error := some "Failed to fetch player page".toList
      matchId := none, matches_analyzed := none }
  | .noHistory =>
    { player := info.player, line := info.line, odds_over := info.odds_over
      odds_under := info.odds_under, team := info.team
      avg_5 := none, avg_10 := none, avg_25 := none
      error := some "No match history found".toList
      matchId := none, matches_analyzed := none }
  | .raised =>
    { player := info.player, line := info.line, odds_over := info.odds_over
      odds_under := info.odds_under, team := info.team
      avg_5 := none, avg_10 := none, avg_25 := none
      error := some "Scraping error".toList
      matchId := none, matches_analyzed := none }
  | .success all_maps =>
    let good := group_kills_by_match all_maps info.player 2
    if good = [] then
      { player := info.player, line := info.line, odds_over := info.odds_over
        odds_under := info.odds_under, team := info.team
        avg_5 := none, avg_10 := none, avg_25 := none
        error := some
          "No valid matches found (need matches with exactly 2 maps)".toList
        matchId := none, matches_analyzed := none }
    else
      { player := info.player, line := info.line, odds_over := info.odds_over
        odds_under := info.odds_under, team := info.team
        avg_5 := average_for (good.map (·.total_kills)) 5
        avg_10 := average_for (good.map (·.total_kills)) 10
        avg_25 := average_for (good.map (·.total_kills)) 25
        error := none
        matchId := info.match_id
        matches_analyzed := some good.length }

/-- The `for player_data in player_info` loop (src/app.py lines 303-453):
the i-th player is processed with the i-th scraping outcome and contributes
exactly one row, in order. -/
def buildResultsFrom (oracle : Nat → ScrapeOutcome) :
    Nat → List PlayerInfo → List ResultRow
  | _, [] => []
  | i, info :: rest =>
    processPlayer info (oracle i) :: buildResultsFrom oracle (i + 1) rest

def buildResults (infos : List PlayerInfo) (oracle : Nat → ScrapeOutcome) :
    List ResultRow :=
  buildResultsFrom oracle 0 infos

/-! ## Grouping of result rows by match (claim C3;
src/app.py lines 455-602) -/

/-- `players_by_match` and its group entries, as an insertion-ordered dict
from match key to the group's player rows (the `teams` component of each
group is dropped: the claims only concern the rows). -/
abbrev Groups := List (Str × List ResultRow)

/-- Dict update used for `players_by_match[match_key]` (create the group if
absent, then extend its `players`). -/
def addToGroup : Groups → Str → List ResultRow → Groups
  | [], key, ps => [(key, ps)]
  | g :: gs, key, ps =>
    if g.1 = key then (g.1, g.2 ++ ps) :: gs else g :: addToGroup gs key ps

/-- Membership of a row in `match_id_to_results[mid]` (src/app.py lines
469-475): the row's match id must be truthy and equal to `mid`. -/
def rowHasMatchId (mid : Str) (r : ResultRow) : Bool :=
  match r.matchId with
  | none => false
  | some s => s ≠ [] && s = mid

/-- One iteration of the `for match_info in all_matches_info` loop
(src/app.py lines 478-576).  The rows for the match are split into
`team1_players ++ team2_players`; the long team-matching fallback chain of
lines 502-570 assigns every row to exactly one of the two sides, so it is
abstracted as the predicate `side` (the claims hold for every such
predicate). -/
def groupStep (results : List ResultRow) (side : MatchInfo → ResultRow → Bool)
    (gs : Groups) (info : MatchInfo) : Groups :=
  if info.match_key ≠ [] ∧ 2 ≤ info.teams.length then
    let ps := results.filter (rowHasMatchId info.match_id)
    addToGroup gs info.match_key
      (ps.filter (side info) ++ ps.filter (fun r => !(side info r)))
  else gs

/-- `all_assigned_player_names` (src/app.py lines 579-584): the set of
non-empty stripped names of the rows already grouped, as a dedup list. -/
def addNames (acc : List Str) (rows : List ResultRow) : List Str :=
  rows.foldl (fun acc r =>
    let n := pyStrip r.player
    if n ≠ [] ∧ n ∉ acc then acc ++ [n] else acc) acc

def assignedNames (gs : Groups) : List Str :=
  gs.foldl (fun acc g => addNames acc g.2) []

/-- One step of the catch-all sweep (src/app.py lines 586-595): a row whose
non-empty stripped name is not yet assigned goes to the `'Other'` group and
its name is marked assigned. -/
def leftStep (st : Groups × List Str) (r : ResultRow) : Groups × List Str :=
  let n := pyStrip r.player
  if n ≠ [] ∧ n ∉ st.2 then
    (addToGroup st.1 "Other".toList [r], st.2 ++ [n])
  else st

/-- The catch-all sweep (src/app.py lines 586-595). -/
def addLeftovers (gs : Groups) (results : List ResultRow) : Groups :=
  (results.foldl leftStep (gs, assignedNames gs)).1

/-- `players_by_match` (src/app.py lines 455-602): the match-info loop plus
the catch-all when match infos exist, else a single `'All Players'` group
for a non-empty result list. -/
def players_by_match (results : List ResultRow) (infos : List MatchInfo)
    (side : MatchInfo → ResultRow → Bool) : Groups :=
  if 0 < infos.length then
    addLeftovers (infos.foldl (groupStep results side) []) results
  else if results ≠ [] then [("All Players".toList, results)]
  else []

/-- The pure dataflow of the `/api/slate` handler once `slate_response` is
a composite dict (src/app.py lines 106-619), with the per-player network
outcomes supplied by `oracle` and the team-side choice by `side`. -/
def get_slate_core (d : SlateDict) (oracle : Nat → ScrapeOutcome)
    (side : MatchInfo → ResultRow → Bool) : List ResultRow × Groups :=
  let infos := extractPlayerInfo d
  let results := buildResults infos oracle
  (results, players_by_match results (allMatchesInfo d infos) side)

/-! ## The slate endpoint and the two provider schemas (claim C6) -/

/-- The two supported upstream schema versions (spec §6): a flat JSON list
of betting-line objects, or a composite object with separate lists. -/
inductive UnderdogJson where
  | jlist (lines : List OULine)
  | jdict (d : SlateDict)
deriving DecidableEq, Repr

/-- `get_pickem_slate` (src/scraper/underdog.py lines 3-10):
`response.json().get("over_under_lines", [])`.  On the composite schema
this returns the `over_under_lines` *list*; on the flat-list schema,
`.get` does not exist on a list and the `AttributeError` propagates (the
`except` clause only catches `requests.RequestException`). -/
def get_pickem_slate : UnderdogJson → Except Unit UnderdogJson
  | .jlist _ => .error ()
  | .jdict d => .ok (.jlist d.over_under_lines)

/-- The observable shape of the `/api/slate` response. -/
inductive SlateApiResult where
  | serverError
  | noPlayers
  | slate (players : List ResultRow) (groups : Groups)
deriving DecidableEq, Repr

/-- The `/api/slate` handler (src/app.py lines 90-623): call
`get_pickem_slate`; an escaping exception yields the 500 handler; a value
that is not a dict (which includes every list, and in both supported
schemas `over_under_lines` is a list) yields the empty
`'No players found'` response; only a dict would reach the pipeline. -/
def api_slate (payload : UnderdogJson) (oracle : Nat → ScrapeOutcome)
    (side : MatchInfo → ResultRow → Bool) : SlateApiResult :=
  match get_pickem_slate payload with
  | .error _ => .serverError
  | .ok v =>
    match v with
    | .jlist _ => .noPlayers
    | .jdict d =>
      let core := get_slate_core d oracle side
      .slate core.1 core.2

/-- A composite payload carrying one perfectly well-formed line, used as the
C6 failing input. -/
def c6Payload : UnderdogJson :=
  .jdict
    { over_under_lines :=
        [⟨some ⟨"Tenz Kills on Maps 1+2 O/U".toList, ⟨"a1".toList⟩⟩,
          some (29 / 2), [⟨some (-110)⟩, ⟨some (-112)⟩]⟩]
      appearances := [⟨"a1".toList, "p1".toList, "t1".toList, "g1".toList⟩]
      players := [⟨"p1".toList, "Tenz".toList, "t1".toList⟩]
      games := [⟨"g1".toList, "t1".toList, "t2".toList,
        "Sentinels vs Fnatic".toList, [], []⟩] }

/-- C6 (code defect): `get_pickem_slate` strips the composite payload down
to its `over_under_lines` list, while the `/api/slate` handler insists on a
dict — so a fully valid composite payload yields the empty
`'No players found'` response, and the flat-list schema raises
(`.get` on a list) into the 500 handler.  No payload of either supported
schema ever produces player rows. -/
theorem api_slate_never_returns_rows :
    api_slate c6Payload (fun _ => ScrapeOutcome.notFound)
        (fun _ _ => true) = SlateApiResult.noPlayers ∧
      ∀ (payload : UnderdogJson) (oracle : Nat → ScrapeOutcome)
        (side : MatchInfo → ResultRow → Bool),
        api_slate payload oracle side = SlateApiResult.serverError ∨
          api_slate payload oracle side = SlateApiResult.noPlayers := by
  refine ⟨rfl, ?_⟩
  intro payload oracle side
  cases payload with
  | jlist lines => exact Or.inl rfl
  | jdict d => exact Or.inr rfl

/-! ## Per-player error rows (claim C7) -/

/-- Defaults for `List.getD`. -/
def blankInfo : PlayerInfo := ⟨[], none, none, none, none, none⟩

def blankRow : ResultRow :=
  ⟨[], none, none, none, none, none, none, none, none, none, none⟩

/-- The four per-player error situations of the claim: no profile found, a
failed page fetch, no match links, or zero matches surviving the
2-map/positive-kills rule. -/
def failsFor (info : PlayerInfo) (oc : ScrapeOutcome) : Bool :=
  match oc with
  | .notFound => true
  | .fetchFailed => true
  | .noHistory => true
  | .success all_maps => group_kills_by_match all_maps info.player 2 = []
  | .raised => false

lemma buildResultsFrom_length (oracle : Nat → ScrapeOutcome) :
    ∀ (infos : List PlayerInfo) (j : Nat),
      (buildResultsFrom oracle j infos).length = infos.length := by
  intro infos
  induction infos with
  | nil => intro j; rfl
  | cons info rest ih =>
    intro j
    simp [buildResultsFrom, ih]

lemma buildResultsFrom_getD (oracle : Nat → ScrapeOutcome) :
    ∀ (infos : List PlayerInfo) (j i : Nat), i < infos.length →
      (buildResultsFrom oracle j infos).getD i blankRow =
        processPlayer (infos.getD i blankInfo) (oracle (j + i)) := by
  intro infos
  induction infos with
  | nil =>
    intro j i h
    simp at h
  | cons info rest ih =>
    intro j i h
    cases i with
    | zero => rfl
    | succ k =>
      have hk : k < rest.length := by simpa using h
      have hidx : j + (k + 1) = (j + 1) + k := by omega
      show (buildResultsFrom oracle (j + 1) rest).getD k blankRow =
        processPlayer (rest.getD k blankInfo) (oracle (j + (k + 1)))
      rw [hidx]
      exact ih (j + 1) k hk

lemma processPlayer_player (info : PlayerInfo) (oc : ScrapeOutcome) :
    (processPlayer info oc).player = info.player := by
  cases oc with
  | notFound => rfl
  | fetchFailed => rfl
  | noHistory => rfl
  | raised => rfl
  | success maps =>
    by_cases hg : group_kills_by_match maps info.player 2 = []
    · simp [processPlayer, hg]
    · simp [processPlayer, hg]

lemma processPlayer_fail (info : PlayerInfo) (oc : ScrapeOutcome)
    (h : failsFor info oc = true) :
    (processPlayer info oc).error.isSome = true ∧
      (processPlayer info oc).avg_5 = none ∧
      (processPlayer info oc).avg_10 = none ∧
      (processPlayer info oc).avg_25 = none := by
  cases oc with
  | notFound => exact ⟨rfl, rfl, rfl, rfl⟩
  | fetchFailed => exact ⟨rfl, rfl, rfl, rfl⟩
  | noHistory => exact ⟨rfl, rfl, rfl, rfl⟩
  | raised => simp [failsFor] at h
  | success maps =>
    have hg : group_kills_by_match maps info.player 2 = [] := by
      simpa [failsFor] using h
    refine ⟨?_, ?_, ?_, ?_⟩ <;> simp [processPlayer, hg]

/-- C7: every entry of the filtered slate contributes exactly one result
row (so no per-player failure aborts the batch — the row count always
equals the filtered player count), the i-th row belongs to the i-th player,
and when that player's processing ends in one of the four per-player errors
the row's `error` field is populated and all three rolling averages are
absent. -/
theorem per_player_errors_nonfatal (d : SlateDict)
    (oracle : Nat → ScrapeOutcome) (i : Nat)
    (hi : i < (extractPlayerInfo d).length) :
    (buildResults (extractPlayerInfo d) oracle).length =
        (extractPlayerInfo d).length ∧
      ((buildResults (extractPlayerInfo d) oracle).getD i blankRow).player =
        ((extractPlayerInfo d).getD i blankInfo).player ∧
      (failsFor ((extractPlayerInfo d).getD i blankInfo) (oracle i) = true →
        (((buildResults (extractPlayerInfo d) oracle).getD i
            blankRow).error).isSome = true ∧
          ((buildResults (extractPlayerInfo d) oracle).getD i
            blankRow).avg_5 = none ∧
          ((buildResults (extractPlayerInfo d) oracle).getD i
            blankRow).avg_10 = none ∧
          ((buildResults (extractPlayerInfo d) oracle).getD i
            blankRow).avg_25 = none) := by
  have hget := buildResultsFrom_getD oracle (extractPlayerInfo d) 0 i hi
  rw [Nat.zero_add] at hget
  have hget2 : (buildResults (extractPlayerInfo d) oracle).getD i blankRow =
      processPlayer ((extractPlayerInfo d).getD i blankInfo) (oracle i) := hget
  refine ⟨buildResultsFrom_length oracle _ 0, ?_, ?_⟩
  · rw [hget2]
    exact processPlayer_player _ _
  · intro hfail
    rw [hget2]
    exact processPlayer_fail _ _ hfail

/-- A slate with one line for PlayerZ, used by the C7 witness. -/
def slateZ : SlateDict :=
  { over_under_lines :=
      [⟨some ⟨"PlayerZ Kills on Maps 1+2 O/U".toList, ⟨[]⟩⟩, some 12, []⟩]
    appearances := []
    players := []
    games := [] }

theorem per_player_errors_nonfatal_witness :
    ((buildResults (extractPlayerInfo slateZ)
        (fun _ => ScrapeOutcome.notFound)).getD 0 blankRow).error.isSome =
        true ∧
      ((buildResults (extractPlayerInfo slateZ)
        (fun _ => ScrapeOutcome.notFound)).getD 0 blankRow).avg_5 = none :=
  have h := (per_player_errors_nonfatal slateZ (fun _ => ScrapeOutcome.notFound)
    0 (by decide)).2.2 (by decide)
  ⟨h.1, h.2.1⟩

/-! ## Membership counting for the match grouping (claim C3) -/

/-- How many rows with stripped name `n` appear across all groups. -/
def nameCount (gs : Groups) (n : Str) : Nat :=
  (gs.map (fun g => (g.2.filter (fun r => pyStrip r.player = n)).length)).sum

/-- How many groups contain a row with stripped name `n`. -/
def groupsWith (gs : Groups) (n : Str) : Nat :=
  (gs.filter (fun g => g.2.any (fun r => pyStrip r.player = n))).length

lemma nameCount_addToGroup (key : Str) (ps : List ResultRow) (n : Str) :
    ∀ (gs : Groups),
      nameCount (addToGroup gs key ps) n =
        nameCount gs n + (ps.filter (fun r => pyStrip r.player = n)).length := by
  intro gs
  induction gs with
  | nil => simp [addToGroup, nameCount]
  | cons g gs ih =>
    by_cases hk : g.1 = key
    · simp only [addToGroup, if_pos hk, nameCount, List.map_cons, List.sum_cons,
        List.filter_append, List.length_append]
      omega
    · simp only [addToGroup, if_neg hk, nameCount, List.map_cons, List.sum_cons]
      have := ih
      simp only [nameCount] at this
      omega

lemma filter_filter_split (p q : ResultRow → Bool) :
    ∀ (ps : List ResultRow),
      ((ps.filter p).filter q).length +
          ((ps.filter (fun r => !(p r))).filter q).length =
        (ps.filter q).length := by
  intro ps
  induction ps with
  | nil => rfl
  | cons r ps ih =>
    have hsplit : (p r = true ∧ (!(p r)) = false) ∨
        (p r = false ∧ (!(p r)) = true) := by
      cases p r
      · exact Or.inr ⟨rfl, rfl⟩
      · exact Or.inl ⟨rfl, rfl⟩
    rcases hsplit with ⟨hp, hnp⟩ | ⟨hp, hnp⟩ <;> cases hq : q r <;>
        simp only [List.filter_cons, hp, hnp, hq, Bool.not_true, Bool.not_false,
          if_true, if_false, Bool.false_eq_true, List.length_cons] <;>
      omega

lemma filter_partition_count (ps : List ResultRow) (p q : ResultRow → Bool) :
    ((ps.filter p ++ ps.filter (fun r => !(p r))).filter q).length =
      (ps.filter q).length := by
  rw [List.filter_append, List.length_append]
  exact filter_filter_split p q ps

lemma filter_eq_singleton_of_nodup_map {α β : Type} [DecidableEq β]
    (f : α → β) :
    ∀ (l : List α) (r : α), (l.map f).Nodup → r ∈ l →
      l.filter (fun x => f x = f r) = [r] := by
  intro l
  induction l with
  | nil =>
    intro r _ hr
    simp at hr
  | cons a t ih =>
    intro r hnd hr
    simp only [List.map_cons, List.nodup_cons] at hnd
    rcases List.mem_cons.mp hr with h1 | h2
    · subst h1
      rw [List.filter_cons, if_pos (by simp)]
      have ht : t.filter (fun x => f x = f r) = [] := by
        rw [List.filter_eq_nil_iff]
        intro x hx
        simp only [decide_eq_true_eq]
        intro he
        exact hnd.1 (he ▸ List.mem_map_of_mem f hx)
      rw [ht]
    · have hne : ¬ (f a = f r) := by
        intro he
        exact hnd.1 (he ▸ List.mem_map_of_mem f h2)
      rw [List.filter_cons, if_neg (by simpa using hne)]
      exact ih r hnd.2 h2

lemma count_le_one_of_nodup_map {α β : Type} [DecidableEq β] (f : α → β)
    (v : β) (p : α → Bool) :
    ∀ (l : List α), (l.map f).Nodup →
      (l.filter (fun x => p x && f x = v)).length ≤ 1 := by
  intro l
  induction l with
  | nil => intro _; simp
  | cons a t ih =>
    intro hnd
    simp only [List.map_cons, List.nodup_cons] at hnd
    rw [List.filter_cons]
    by_cases hk : (p a && decide (f a = v)) = true
    · rw [if_pos hk]
      have hfa : f a = v := by
        have := (Bool.and_eq_true _ _).mp hk |>.2
        simpa using this
      have hrest : t.filter (fun x => p x && f x = v) = [] := by
        rw [List.filter_eq_nil_iff]
        intro x hx
        simp only [Bool.and_eq_true, decide_eq_true_eq, not_and]
        intro _ he
        exact hnd.1 ((he.trans hfa.symm) ▸ List.mem_map_of_mem f hx)
      rw [hrest]
      simp
    · rw [if_neg hk]
      exact ih hnd.2

lemma filter_comm_length {α : Type} (p q : α → Bool) (l : List α) :
    ((l.filter p).filter q).length = ((l.filter q).filter p).length := by
  rw [List.filter_filter, List.filter_filter]
  congr 1
  apply List.filter_congr
  intro a _
  exact Bool.and_comm _ _

/-- The `continue` guard of the match-info loop (src/app.py line 483). -/
def validInfo (i : MatchInfo) : Bool :=
  i.match_key ≠ [] && 2 ≤ i.teams.length

/-- Whether the match-info loop deposits row `r` into info `i`'s group. -/
def infoCounts (r : ResultRow) (i : MatchInfo) : Bool :=
  validInfo i && rowHasMatchId i.match_id r

lemma nameCount_groupFold (results : List ResultRow)
    (side : MatchInfo → ResultRow → Bool) (r : ResultRow)
    (huniq : results.filter
      (fun x => pyStrip x.player = pyStrip r.player) = [r]) :
    ∀ (infos : List MatchInfo) (gs : Groups),
      nameCount (infos.foldl (groupStep results side) gs) (pyStrip r.player) =
        nameCount gs (pyStrip r.player) +
          (infos.filter (infoCounts r)).length := by
  intro infos
  induction infos with
  | nil =>
    intro gs
    simp
  | cons i rest ih =>
    intro gs
    rw [List.foldl_cons, ih]
    rw [List.filter_cons]
    by_cases hv : i.match_key ≠ [] ∧ 2 ≤ i.teams.length
    · have hvb : validInfo i = true := by
        simp only [validInfo, Bool.and_eq_true, decide_eq_true_eq]
        exact ⟨hv.1, hv.2⟩
      have hstep : groupStep results side gs i =
          addToGroup gs i.match_key
            ((results.filter (rowHasMatchId i.match_id)).filter (side i) ++
              (results.filter (rowHasMatchId i.match_id)).filter
                (fun x => !(side i x))) := by
        unfold groupStep
        rw [if_pos hv]
      rw [hstep, nameCount_addToGroup, filter_partition_count]
      rw [filter_comm_length, huniq]
      by_cases hm : rowHasMatchId i.match_id r = true
      · have hic : infoCounts r i = true := by
          simp [infoCounts, hvb, hm]
        rw [if_pos hic]
        rw [List.filter_cons, if_pos hm]
        simp only [List.length_cons, List.length_nil, List.filter_nil]
        omega
      · have hic : infoCounts r i = false := by
          simp only [infoCounts, hvb, Bool.true_and]
          simpa using hm
        rw [if_neg (by simp [hic])]
        rw [List.filter_cons, if_neg hm]
        simp only [List.length_nil, List.filter_nil]
        omega
    · have hstep : groupStep results side gs i = gs := by
        unfold groupStep
        rw [if_neg hv]
      have hic : infoCounts r i = false := by
        simp only [infoCounts, validInfo]
        rw [Bool.and_eq_false_iff]
        left
        rw [Bool.and_eq_false_iff]
        push_neg at hv
        by_cases hk : i.match_key = []
        · left; simpa using hk
        · right
          have := hv hk
          simpa using this
      rw [hstep, if_neg (by simp [hic])]

lemma mem_addNames :
    ∀ (rows : List ResultRow) (acc : List Str) (x : Str),
      x ∈ addNames acc rows ↔
        x ∈ acc ∨ (x ≠ [] ∧ ∃ r ∈ rows, pyStrip r.player = x) := by
  intro rows
  induction rows with
  | nil =>
    intro acc x
    simp [addNames]
  | cons r rows ih =>
    intro acc x
    rw [show addNames acc (r :: rows) =
      addNames (if pyStrip r.player ≠ [] ∧ pyStrip r.player ∉ acc then
        acc ++ [pyStrip r.player] else acc) rows from rfl]
    rw [ih]
    by_cases hc : pyStrip r.player ≠ [] ∧ pyStrip r.player ∉ acc
    · rw [if_pos hc]
      constructor
      · rintro (hx | hx)
        · rcases List.mem_append.mp hx with h1 | h2
          · exact Or.inl h1
          · have hxn := List.mem_singleton.mp h2
            refine Or.inr ⟨hxn ▸ hc.1, r, List.mem_cons_self r rows, hxn.symm⟩
        · exact Or.inr ⟨hx.1, hx.2.imp
            (fun y hy => ⟨List.mem_cons_of_mem r hy.1, hy.2⟩)⟩
      · rintro (hx | ⟨hnex, y, hy, hyx⟩)
        · exact Or.inl (List.mem_append_left _ hx)
        · rcases List.mem_cons.mp hy with h1 | h2
          · subst h1
            exact Or.inl (List.mem_append_right _ (hyx ▸ List.mem_singleton_self _))
          · exact Or.inr ⟨hnex, y, h2, hyx⟩
    · rw [if_neg hc]
      push_neg at hc
      constructor
      · rintro (hx | ⟨hnex, y, hy, hyx⟩)
        · exact Or.inl hx
        · exact Or.inr ⟨hnex, y, List.mem_cons_of_mem r hy, hyx⟩
      · rintro (hx | ⟨hnex, y, hy, hyx⟩)
        · exact Or.inl hx
        · rcases List.mem_cons.mp hy with h1 | h2
          · subst h1
            exact Or.inl (hyx ▸ hc (hyx.symm ▸ hnex))
          · exact Or.inr ⟨hnex, y, h2, hyx⟩

lemma mem_assignedFold :
    ∀ (gs : Groups) (acc : List Str) (x : Str),
      x ∈ gs.foldl (fun acc g => addNames acc g.2) acc ↔
        x ∈ acc ∨ (x ≠ [] ∧ ∃ g ∈ gs, ∃ r ∈ g.2, pyStrip r.player = x) := by
  intro gs
  induction gs with
  | nil =>
    intro acc x
    simp
  | cons g gs ih =>
    intro acc x
    rw [List.foldl_cons, ih, mem_addNames]
    constructor
    · rintro ((hx | ⟨hnex, y, hy, hyx⟩) | ⟨hnex, g2, hg2, y, hy, hyx⟩)
      · exact Or.inl hx
      · exact Or.inr ⟨hnex, g, List.mem_cons_self g gs, y, hy, hyx⟩
      · exact Or.inr ⟨hnex, g2, List.mem_cons_of_mem g hg2, y, hy, hyx⟩
    · rintro (hx | ⟨hnex, g2, hg2, y, hy, hyx⟩)
      · exact Or.inl (Or.inl hx)
      · rcases List.mem_cons.mp hg2 with h1 | h2
        · subst h1
          exact Or.inl (Or.inr ⟨hnex, y, hy, hyx⟩)
        · exact Or.inr ⟨hnex, g2, h2, y, hy, hyx⟩

lemma mem_assignedNames (gs : Groups) (x : Str) :
    x ∈ assignedNames gs ↔
      x ≠ [] ∧ ∃ g ∈ gs, ∃ r ∈ g.2, pyStrip r.player = x := by
  unfold assignedNames
  rw [mem_assignedFold]
  simp

lemma filter_length_pos_iff {α : Type} (q : α → Bool) (l : List α) :
    0 < (l.filter q).length ↔ ∃ x ∈ l, q x = true := by
  constructor
  · intro h
    rcases List.exists_mem_of_length_pos h with ⟨y, hy⟩
    have hm := List.mem_filter.mp hy
    exact ⟨y, hm.1, hm.2⟩
  · rintro ⟨x, hx, hq⟩
    exact List.length_pos_of_mem (List.mem_filter.mpr ⟨hx, hq⟩)

lemma nameCount_pos_iff (n : Str) :
    ∀ (gs : Groups),
      0 < nameCount gs n ↔ ∃ g ∈ gs, ∃ r ∈ g.2, pyStrip r.player = n := by
  intro gs
  induction gs with
  | nil => simp [nameCount]
  | cons g gs ih =>
    unfold nameCount at ih ⊢
    simp only [List.map_cons, List.sum_cons]
    constructor
    · intro h
      by_cases ha : 0 < (g.2.filter (fun r => pyStrip r.player = n)).length
      · rcases (filter_length_pos_iff _ _).mp ha with ⟨y, hy, hq⟩
        exact ⟨g, List.mem_cons_self g gs, y, hy, by simpa using hq⟩
      · have hb : 0 < (gs.map (fun g =>
            (g.2.filter (fun r => pyStrip r.player = n)).length)).sum := by
          omega
        rcases ih.mp hb with ⟨g2, hg2, y, hy, hyx⟩
        exact ⟨g2, List.mem_cons_of_mem g hg2, y, hy, hyx⟩
    · rintro ⟨g2, hg2, y, hy, hyx⟩
      rcases List.mem_cons.mp hg2 with h1 | h2
      · subst h1
        have : 0 < (g2.2.filter (fun r => pyStrip r.player = n)).length :=
          (filter_length_pos_iff _ _).mpr ⟨y, hy, by simpa using hyx⟩
        omega
      · have := ih.mpr ⟨g2, h2, y, hy, hyx⟩
        omega

lemma leftFold_count (n : Str) (hn : n ≠ []) :
    ∀ (rs : List ResultRow) (gs : Groups) (assigned : List Str),
      (n ∈ assigned ↔ 0 < nameCount gs n) →
      nameCount gs n ≤ 1 →
      (rs.filter (fun x => pyStrip x.player = n)).length ≤ 1 →
      nameCount ((rs.foldl leftStep (gs, assigned)).1) n =
        if 0 < nameCount gs n ∨ ∃ x ∈ rs, pyStrip x.player = n then 1
        else 0 := by
  intro rs
  induction rs with
  | nil =>
    intro gs assigned _hiff hle _hcnt
    simp only [List.foldl_nil]
    by_cases h : 0 < nameCount gs n
    · rw [if_pos (Or.inl h)]
      omega
    · rw [if_neg ?hng]
      case hng =>
        rintro (h1 | ⟨x, hx, _⟩)
        · exact h h1
        · simp at hx
      omega
  | cons r rs ih =>
    intro gs assigned hiff hle hcnt
    rw [List.foldl_cons]
    by_cases hrn : pyStrip r.player = n
    · have hrs : rs.filter (fun x => pyStrip x.player = n) = [] := by
        rw [List.filter_eq_nil_iff]
        intro x hx hxe
        rw [List.filter_cons, if_pos (by simpa using hrn)] at hcnt
        have hxm : x ∈ rs.filter (fun x => pyStrip x.player = n) :=
          List.mem_filter.mpr ⟨hx, hxe⟩
        have := List.length_pos_of_mem hxm
        simp only [List.length_cons] at hcnt
        omega
      by_cases hmem : n ∈ assigned
      · have hstep : leftStep (gs, assigned) r = (gs, assigned) := by
          unfold leftStep
          rw [if_neg (by rintro ⟨_, hna⟩; exact hna (by rw [hrn]; exact hmem))]
        rw [hstep, ih gs assigned hiff hle (by rw [hrs]; simp)]
        have hpos : 0 < nameCount gs n := hiff.mp hmem
        rw [if_pos (Or.inl hpos), if_pos (Or.inl hpos)]
      · have hstep : leftStep (gs, assigned) r =
            (addToGroup gs "Other".toList [r], assigned ++ [n]) := by
          unfold leftStep
          rw [hrn, if_pos ⟨hn, hmem⟩]
        have hgs0 : nameCount gs n = 0 := by
          by_contra h
          exact hmem (hiff.mpr (by omega))
        have hcount1 : nameCount (addToGroup gs "Other".toList [r]) n = 1 := by
          rw [nameCount_addToGroup, hgs0, List.filter_cons,
            if_pos (by simpa using hrn)]
          rfl
        rw [hstep, ih (addToGroup gs "Other".toList [r]) (assigned ++ [n])
          ⟨fun _ => by rw [hcount1]; omega,
            fun _ => List.mem_append_right _ (List.mem_singleton_self n)⟩
          (by rw [hcount1]) (by rw [hrs]; simp)]
        rw [if_pos (by rw [hcount1]; exact Or.inl (by omega)),
          if_pos (Or.inr ⟨r, List.mem_cons_self r rs, hrn⟩)]
    · have hcnt2 : (rs.filter (fun x => pyStrip x.player = n)).length ≤ 1 := by
        rw [List.filter_cons, if_neg (by simpa using hrn)] at hcnt
        exact hcnt
      have hcond : (0 < nameCount gs n ∨ ∃ x ∈ rs, pyStrip x.player = n) ↔
          (0 < nameCount gs n ∨ ∃ x ∈ r :: rs, pyStrip x.player = n) := by
        constructor
        · rintro (h1 | ⟨x, hx, he⟩)
          · exact Or.inl h1
          · exact Or.inr ⟨x, List.mem_cons_of_mem r hx, he⟩
        · rintro (h1 | ⟨x, hx, he⟩)
          · exact Or.inl h1
          · rcases List.mem_cons.mp hx with h2 | h3
            · exact absurd (h2 ▸ he) hrn
            · exact Or.inr ⟨x, h3, he⟩
      by_cases hc : pyStrip r.player ≠ [] ∧ pyStrip r.player ∉ assigned
      · have hstep : leftStep (gs, assigned) r =
            (addToGroup gs "Other".toList [r],
              assigned ++ [pyStrip r.player]) := by
          unfold leftStep
          rw [if_pos hc]
        have hcount : nameCount (addToGroup gs "Other".toList [r]) n =
            nameCount gs n := by
          rw [nameCount_addToGroup, List.filter_cons,
            if_neg (by simpa using hrn)]
          rfl
        have hmemiff : (n ∈ assigned ++ [pyStrip r.player]) ↔
            0 < nameCount (addToGroup gs "Other".toList [r]) n := by
          rw [hcount]
          constructor
          · intro hna
            rcases List.mem_append.mp hna with h1 | h2
            · exact hiff.mp h1
            · exact absurd (List.mem_singleton.mp h2).symm hrn
          · intro hpos
            exact List.mem_append_left _ (hiff.mpr hpos)
        rw [hstep, ih _ _ hmemiff (by rw [hcount]; exact hle) hcnt2, hcount]
        rw [if_congr hcond rfl rfl]
      · have hstep : leftStep (gs, assigned) r = (gs, assigned) := by
          unfold leftStep
          rw [if_neg hc]
        rw [hstep, ih gs assigned hiff hle hcnt2]
        rw [if_congr hcond rfl rfl]

/-- C3 amended: in the grouping stage of the slate query, provided the
processed rows carry pairwise-distinct, non-empty (after stripping) player
names and the match infos carry pairwise-distinct match ids, every player
appears in exactly one `MatchGroup` of the final `players_by_match` output
— exactly once in total, for every team-side assignment: rows whose match
cannot be resolved land in the `'Other'` (or `'All Players'`) catch-all. -/
theorem slate_grouping_unique (results : List ResultRow)
    (infos : List MatchInfo) (side : MatchInfo → ResultRow → Bool)
    (hnames : (results.map (fun x => pyStrip x.player)).Nodup)
    (hnonempty : ∀ x ∈ results, pyStrip x.player ≠ [])
    (hids : (infos.map (·.match_id)).Nodup)
    (r : ResultRow) (hr : r ∈ results) :
    nameCount (players_by_match results infos side) (pyStrip r.player) = 1 := by
  have huniq : results.filter
      (fun x => pyStrip x.player = pyStrip r.player) = [r] :=
    filter_eq_singleton_of_nodup_map (fun x => pyStrip x.player) results r
      hnames hr
  have hn : pyStrip r.player ≠ [] := hnonempty r hr
  unfold players_by_match
  by_cases hinf : 0 < infos.length
  · rw [if_pos hinf]
    unfold addLeftovers
    have hcount : nameCount (infos.foldl (groupStep results side) [])
        (pyStrip r.player) = (infos.filter (infoCounts r)).length := by
      rw [nameCount_groupFold results side r huniq infos []]
      simp [nameCount]
    have hle : nameCount (infos.foldl (groupStep results side) [])
        (pyStrip r.player) ≤ 1 := by
      rw [hcount]
      cases hmid : r.matchId with
      | none =>
        have hnil : infos.filter (infoCounts r) = [] := by
          rw [List.filter_eq_nil_iff]
          intro i _
          simp [infoCounts, rowHasMatchId, hmid]
        rw [hnil]
        simp
      | some s =>
        by_cases hs : s = []
        · have hnil : infos.filter (infoCounts r) = [] := by
            rw [List.filter_eq_nil_iff]
            intro i _
            simp [infoCounts, rowHasMatchId, hmid, hs]
          rw [hnil]
          simp
        · have hrow : ∀ i : MatchInfo,
              rowHasMatchId i.match_id r = decide (i.match_id = s) := by
            intro i
            show (match r.matchId with
              | none => false
              | some t => t ≠ [] && t = i.match_id) = _
            rw [hmid]
            by_cases hie : i.match_id = s
            · rw [decide_eq_true hie]
              show (decide (s ≠ []) && decide (s = i.match_id)) = true
              rw [decide_eq_true hs, decide_eq_true hie.symm]
              rfl
            · rw [decide_eq_false hie]
              show (decide (s ≠ []) && decide (s = i.match_id)) = false
              rw [show decide (s = i.match_id) = false from
                decide_eq_false (fun he => hie he.symm)]
              exact Bool.and_false _
          have hcong : ∀ i ∈ infos, infoCounts r i =
              (fun x => validInfo x && decide (x.match_id = s)) i := by
            intro i _
            unfold infoCounts
            rw [hrow i]
          rw [List.filter_congr hcong]
          exact count_le_one_of_nodup_map (·.match_id) s validInfo infos hids
    have hiff : pyStrip r.player ∈
        assignedNames (infos.foldl (groupStep results side) []) ↔
        0 < nameCount (infos.foldl (groupStep results side) [])
          (pyStrip r.player) := by
      rw [mem_assignedNames, nameCount_pos_iff]
      constructor
      · exact fun h => h.2
      · exact fun h => ⟨hn, h⟩
    rw [leftFold_count (pyStrip r.player) hn results
      (infos.foldl (groupStep results side) [])
      (assignedNames (infos.foldl (groupStep results side) []))
      hiff hle (by rw [huniq]; simp)]
    rw [if_pos (Or.inr ⟨r, hr, rfl⟩)]
  · rw [if_neg hinf]
    have hres : results ≠ [] := by
      intro h
      rw [h] at hr
      simp at hr
    rw [if_pos hres]
    unfold nameCount
    rw [show ([("All Players".toList, results)] :
        Groups).map (fun g => (g.2.filter
          (fun x => pyStrip x.player = pyStrip r.player)).length) =
      [(results.filter
        (fun x => pyStrip x.player = pyStrip r.player)).length] from rfl]
    rw [huniq]
    rfl

/-- Values for the C3 counterexample: a slate offering the same player name
on two lines tied to two different games. -/
def c3Slate : SlateDict :=
  { over_under_lines :=
      [⟨some ⟨"X Kills on Maps 1+2 O/U".toList, ⟨"a1".toList⟩⟩, some 10, []⟩,
       ⟨some ⟨"X Kills on Maps 1+2 O/U".toList, ⟨"a2".toList⟩⟩, some 11, []⟩]
    appearances :=
      [⟨"a1".toList, "p1".toList, "t1".toList, "g1".toList⟩,
       ⟨"a2".toList, "p1".toList, "t3".toList, "g2".toList⟩]
    players := [⟨"p1".toList, "X".toList, "t1".toList⟩]
    games :=
      [⟨"g1".toList, "t1".toList, "t2".toList, "A vs B".toList, [], []⟩,
       ⟨"g2".toList, "t3".toList, "t4".toList, "C vs D".toList, [], []⟩] }

/-- A successful scrape giving every player one eligible two-map match. -/
def c3Oracle : Nat → ScrapeOutcome := fun _ =>
  ScrapeOutcome.success
    [⟨"m1".toList, "jett".toList, 9, "u1".toList, "A vs B".toList,
      "2024-01-01".toList⟩,
     ⟨"m2".toList, "sova".toList, 8, "u1".toList, "A vs B".toList,
      "2024-01-01".toList⟩]

/-- C3 counterexample: on this slate the player `X` is present twice in the
filtered slate (two lines, two different matches), both rows are processed
successfully, and `X` ends up in two distinct `MatchGroup`s of the final
`players_by_match` output — not in exactly one. -/
theorem slate_grouping_duplicate_counterexample :
    groupsWith (get_slate_core c3Slate c3Oracle (fun _ _ => true)).2
        "X".toList = 2 ∧
      nameCount (get_slate_core c3Slate c3Oracle (fun _ _ => true)).2
        "X".toList = 2 := by
  constructor <;> rfl

theorem slate_grouping_unique_witness :
    nameCount (players_by_match
      [⟨"A".toList, none, none, none, none, none, none, none, none, none,
        none⟩] [] (fun _ _ => true)) "A".toList = 1 :=
  slate_grouping_unique
    [⟨"A".toList, none, none, none, none, none, none, none, none, none,
      none⟩] [] (fun _ _ => true) (by decide) (by decide) (by decide)
    ⟨"A".toList, none, none, none, none, none, none, none, none, none, none⟩
    (by decide)

end Pickem
